import Mathlib

set_option maxRecDepth 8000

/-!
Verification of the dr3d-inventory-art relay server (src/server.mjs).

The JavaScript source is shallowly embedded in Lean:

* JavaScript runtime values (the JSON bodies exchanged with the Steam
  services, request bodies, and the objects the handlers build) are the
  inductive type JsValue.  JavaScript undefined is the constructor undef;
  NaN and the infinities (which the source code never distinguishes: both
  are rejected by Number.isFinite and neither compares greater than zero
  the way a finite number does, see the comments at strToNum) are collapsed
  into the constructor nan.
* JavaScript numbers are modelled as exact rationals.  The overflow of
  string-to-number conversion to Infinity is modelled by the bound 2^1024;
  rounding of decimal literals to binary doubles is not modelled, so the
  model is exact for integers below 2^53 and for short decimal fractions,
  which covers every value the configuration format is designed for.
* Stateful behaviour (the two outbound HTTP calls and Math.random) is
  passed in explicitly: each route handler takes the upstream responses as
  Except values (error = the axios promise rejected) and the random draw
  as a rational, and returns the HTTP response it would send together with
  the list of outbound calls it performed, in order.
-/

/-- A JavaScript runtime value as used by server.mjs: JSON data plus
undefined and the non-finite numbers (collapsed into nan). -/
inductive JsValue where
  | undef : JsValue
  | nullV : JsValue
  | nan : JsValue
  | bool : Bool → JsValue
  | num : ℚ → JsValue
  | str : String → JsValue
  | arr : List JsValue → JsValue
  | obj : List (String × JsValue) → JsValue

namespace JsValue

/-- Property access o.k (and the optional-chained o?.k, which only differs
on null/undefined receivers, where plain access would throw; the source
only uses plain access on receivers that cannot be null/undefined).
Property lookup on primitives yields undefined, as in JavaScript, for every
property the source reads. -/
def getField : JsValue → String → JsValue
  | obj fields, k => (fields.lookup k).getD undef
  | _, _ => undef

/-- JavaScript truthiness: undefined, null, NaN, false, 0 and the empty
string are falsy; every other value (including empty arrays and objects)
is truthy. -/
def truthy : JsValue → Bool
  | undef => false
  | nullV => false
  | nan => false
  | bool b => b
  | num q => q != 0
  | str s => s != ""
  | arr _ => true
  | obj _ => true

/-- The JavaScript expression a || b. -/
def jsOr (a b : JsValue) : JsValue := if a.truthy then a else b

/-- JavaScript strict equality (===) restricted to the comparisons the
source performs.  NaN is equal to nothing; values of different primitive
types are unequal.  Arrays and objects compare by reference; the source
only ever strict-compares values of distinct provenance (a request field
against an upstream response field), for which reference equality of two
non-primitive values is always false, so the model returns false there. -/
def jsStrictEq : JsValue → JsValue → Bool
  | undef, undef => true
  | nullV, nullV => true
  | bool a, bool b => a == b
  | num a, num b => a == b
  | str a, str b => a == b
  | _, _ => false

end JsValue

/-! ## Characters, digits and token splitting -/

/-- ASCII decimal digit test (the regex class \d). -/
def isDig (c : Char) : Bool := '0' ≤ c && c ≤ '9'

/-- Whitespace as matched by the regex class \s and trimmed by
String.prototype.trim (the common characters). -/
def isWs (c : Char) : Bool :=
  c = ' ' || c = '\t' || c = '\n' || c = '\r' || c = '\x0b' || c = '\x0c'

/-- The separator class [;,] of the split in parseDropKeys. -/
def isSep (c : Char) : Bool := c = ';' || c = ','

/-- Numeric value of a digit character. -/
def dVal (c : Char) : ℕ := c.toNat - 48

/-- Value of a digit string, most significant first (how a matched \d+
group is read by Number). -/
def dv : List Char → ℕ
  | [] => 0
  | c :: cs => dVal c * 10 ^ cs.length + dv cs

/-- Longest prefix satisfying p, together with the remainder. -/
def spanWhile (p : Char → Bool) : List Char → List Char × List Char
  | [] => ([], [])
  | c :: cs =>
    if p c then
      let r := spanWhile p cs
      (c :: r.1, r.2)
    else ([], c :: cs)

/-- String.prototype.trim: drop whitespace from both ends. -/
def trimChars (cs : List Char) : List Char :=
  ((cs.dropWhile isWs).reverse.dropWhile isWs).reverse

/-- String.prototype.split(/[;,]/): split on every separator occurrence;
always returns at least one (possibly empty) field. -/
def splitSeps : List Char → List (List Char)
  | [] => [[]]
  | c :: cs =>
    if isSep c then [] :: splitSeps cs
    else
      match splitSeps cs with
      | t :: ts => (c :: t) :: ts
      | [] => [[c]]

/-! ## The Number() conversion (string to double) -/

/-- Upper bound of the finite doubles: conversions whose exact value
reaches 2^1024 overflow to Infinity and are rejected by Number.isFinite.
(The exact IEEE threshold is 2^1024 - 2^970; the difference is invisible
to every configuration value within the double-exact range.) -/
def dblLimitNat : ℕ := (2 ^ 256) ^ 4

def dblLimit : ℚ := (dblLimitNat : ℚ)

/-- Exponent part of a decimal literal: either the end of the token or
e/E, an optional sign and a nonempty digit run reaching the end. -/
def parseExp (r : List Char) (q : ℚ) : Option ℚ :=
  match r with
  | [] => some q
  | c :: rest =>
    if c = 'e' || c = 'E' then
      let sgn : Bool × List Char :=
        match rest with
        | '+' :: ds => (false, ds)
        | '-' :: ds => (true, ds)
        | ds => (false, ds)
      let sp := spanWhile isDig sgn.2
      if sp.1 = [] ∨ sp.2 ≠ [] then none
      else some (if sgn.1 then q / 10 ^ dv sp.1 else q * 10 ^ dv sp.1)
    else none

/-- Unsigned decimal literal: digits, an optional dot with further digits
(at least one digit in total), and an optional exponent. -/
def parseDec (cs : List Char) : Option ℚ :=
  let ip := spanWhile isDig cs
  match ip.2 with
  | '.' :: r2 =>
    let fp := spanWhile isDig r2
    if ip.1 = [] ∧ fp.1 = [] then none
    else parseExp fp.2 ((dv ip.1 : ℚ) + (dv fp.1 : ℚ) / 10 ^ fp.1.length)
  | r1 => if ip.1 = [] then none else parseExp r1 ((dv ip.1 : ℚ))

/-- Hex digit value, for 0x literals. -/
def hexVal (c : Char) : Option ℕ :=
  if isDig c then some (dVal c)
  else if 'a' ≤ c && c ≤ 'f' then some (c.toNat - 87)
  else if 'A' ≤ c && c ≤ 'F' then some (c.toNat - 55)
  else none

/-- Digit value in a non-decimal radix (2, 8 or 16). -/
def radixVal (radix : ℕ) (c : Char) : Option ℕ :=
  match hexVal c with
  | some v => if v < radix then some v else none
  | none => none

/-- Nonempty digit run of the given radix, spanning the whole remainder. -/
def parseRadixRun (radix : ℕ) : List Char → Option ℕ
  | [] => none
  | [c] => radixVal radix c
  | c :: cs =>
    match radixVal radix c, parseRadixRun radix cs with
    | some v, some rest => some (v * radix ^ cs.length + rest)
    | _, _ => none

/-- Radix tag of a 0x / 0o / 0b literal (the characters after the 0). -/
def radixOf : List Char → Option (ℕ × List Char)
  | [] => none
  | c :: t =>
    if c = 'x' ∨ c = 'X' then some (16, t)
    else if c = 'o' ∨ c = 'O' then some (8, t)
    else if c = 'b' ∨ c = 'B' then some (2, t)
    else none

/-- Finiteness gate: the model of Number.isFinite(Number(s)).  Values at
or above the double range are Infinity, hence rejected. -/
def guardFinite (q : ℚ) : Option ℚ := if |q| < dblLimit then some q else none

/-- Number(s) for a string s, returning some q exactly when the result is
a finite number q; none models NaN as well as the infinities: the literal
Infinity, and finite-looking literals whose value overflows the double
range.  parseDropKeys filters with Number.isFinite, which identifies all
of these, so collapsing them loses nothing the source can observe. -/
def strToNum (cs : List Char) : Option ℚ :=
  match trimChars cs with
  | [] => some 0
  | c :: rest =>
    if c = '0' ∧ (radixOf rest).isSome then
      match radixOf rest with
      | some (radix, ds) => (parseRadixRun radix ds).bind fun n => guardFinite (n : ℚ)
      | none => none
    else if c = '+' then (parseDec rest).bind guardFinite
    else if c = '-' then (parseDec rest).bind fun q => guardFinite (-q)
    else (parseDec (c :: rest)).bind guardFinite

/-! ## parseDropKeys -/

/-- The regex match t.match(of caret (\d+)\s*-\s*(\d+) dollar): a nonempty
digit run, optional whitespace, a hyphen, optional whitespace, a nonempty
digit run reaching the end of the token. -/
def rangeMatch (t : List Char) : Option (ℕ × ℕ) :=
  let a := spanWhile isDig t
  if a.1 = [] then none
  else
    match a.2.dropWhile isWs with
    | '-' :: r3 =>
      let b := spanWhile isDig (r3.dropWhile isWs)
      if b.1 = [] ∨ b.2 ≠ [] then none else some (dv a.1, dv b.1)
    | _ => none

/-- The keys one trimmed nonempty token contributes: an inclusive range
when the range regex matches and the guard Number.isFinite(a) and
Number.isFinite(b) and a <= b holds (a non-matching guard contributes
nothing, the token is consumed by the continue), else the single finite
number the token converts to, else nothing. -/
def tokenContrib (t : List Char) : List ℚ :=
  match rangeMatch t with
  | some (a, b) =>
    if a < dblLimitNat ∧ b < dblLimitNat ∧ a ≤ b then
      List.map (Nat.cast : ℕ → ℚ) (List.range' a (b + 1 - a))
    else []
  | none =>
    match strToNum t with
    | some q => [q]
    | none => []

/-- Set.prototype.add for an insertion-ordered duplicate-free list. -/
def addKey (acc : List ℚ) (q : ℚ) : List ℚ := if q ∈ acc then acc else acc ++ [q]

/-- The trimmed nonempty tokens of the input. -/
def tokenList (s : String) : List (List Char) :=
  ((splitSeps s.toList).map trimChars).filter (· ≠ [])

/-- Contents of the Set after the loop body has run over every token. -/
def collectKeys (ts : List (List Char)) : List ℚ :=
  ts.foldl (fun acc t => (tokenContrib t).foldl addKey acc) []

/-- parseDropKeys: split on [;,], trim, skip empties, add ranges and
single numbers into a Set, return the ascending sort. -/
def parseDropKeys (s : String) : List ℚ :=
  List.insertionSort (· ≤ ·) (collectKeys (tokenList s))


/-! ## Rendering numbers back to strings -/

/-- Decimal digit character for a value below ten. -/
def digCh : ℕ → Char
  | 0 => '0'
  | 1 => '1'
  | 2 => '2'
  | 3 => '3'
  | 4 => '4'
  | 5 => '5'
  | 6 => '6'
  | 7 => '7'
  | 8 => '8'
  | _ => '9'

/-- Decimal digit characters of a natural number, most significant
first. -/
def natChars (n : ℕ) : List Char :=
  if n = 0 then ['0'] else ((Nat.digits 10 n).map digCh).reverse

/-- Decimal rendering of a number whose denominator divides a power of
ten (every number parseDropKeys can produce): sign, integer digits and,
for non-integers, a dot followed by the fractional digits.  Denominator
scaling uses the exponent k below, so the fractional part may carry
trailing zeros where JavaScript would print the shortest form; the
denoted value is identical either way.  posBody renders the magnitude
n / d (n, d at least 1, d dividing a power of ten); numToString adds the
sign and the zero case. -/
def posBody (n d : ℕ) : List Char :=
  let k := if d = 1 then 0 else d
  let m := n * 10 ^ k / d
  if k = 0 then natChars m
  else
    let pad := List.replicate (k + 1 - (natChars m).length) '0' ++ natChars m
    pad.take (pad.length - k) ++ '.' :: pad.drop (pad.length - k)

def numToString (q : ℚ) : List Char :=
  if q = 0 then ['0']
  else if q < 0 then '-' :: posBody q.num.natAbs q.den
  else posBody q.num.natAbs q.den

/-- Join with the separator of a comma-separated listing, as in the
DROP_KEYS.join of the startup log. -/
def joinCS : List (List Char) → List Char
  | [] => []
  | [t] => t
  | t :: ts => t ++ ',' :: ' ' :: joinCS ts

/-- Serialize a key list as a comma-separated list, each key rendered as
a number; this is the serialization the idempotence property of the
design document applies to the parser output. -/
def serializeKeys (l : List ℚ) : String := String.mk (joinCS (l.map numToString))

/-! ## String(v) and Number(v) for general values -/

mutual

/-- String(v).  Arrays join their elements with commas, plain objects
print as the usual object tag. -/
def jsToString : JsValue → String
  | .undef => "undefined"
  | .nullV => "null"
  | .nan => "NaN"
  | .bool b => if b then "true" else "false"
  | .num q => String.mk (numToString q)
  | .str s => s
  | .arr l => String.intercalate "," (jsToStringList l)
  | .obj _ => "[object Object]"

/-- The element strings of Array.prototype.join: null and undefined
become empty strings. -/
def jsToStringList : List JsValue → List String
  | [] => []
  | .undef :: vs => "" :: jsToStringList vs
  | .nullV :: vs => "" :: jsToStringList vs
  | v :: vs => jsToString v :: jsToStringList vs

end

/-- Number(v): some q for a finite result, none for NaN (and for the
infinities, which the source code never distinguishes from NaN: every
conversion result is either compared with isFinite-style guards or only
used where both behave alike). -/
def toNumberJs : JsValue → Option ℚ
  | .undef => none
  | .nullV => some 0
  | .nan => none
  | .bool b => some (if b then 1 else 0)
  | .num q => some q
  | .str s => strToNum s.toList
  | .arr l => strToNum (jsToString (.arr l)).toList
  | .obj f => strToNum (jsToString (.obj f)).toList

/-- Number(v) as a value. -/
def toNumValue (v : JsValue) : JsValue :=
  match toNumberJs v with
  | some q => .num q
  | none => .nan

/-- The comparison v > 0 as grantItem evaluates it on an items.length
value (numeric coercion; NaN and undefined compare false). -/
def gtZero (v : JsValue) : Bool :=
  match toNumberJs v with
  | some q => decide (0 < q)
  | none => false

/-! ## The upstream calls -/

/-- A rejected axios promise (network failure, HTTP error status, or an
exception thrown while processing the response): the fields of the error
the catch blocks read. -/
structure JsErr where
  status : JsValue
  message : JsValue
  asString : String

/-- The TypeError raised by reading .length of null or undefined. -/
def typeErrLength (kind : String) : JsErr :=
  ⟨.undef, .str ("Cannot read properties of " ++ kind ++ " (reading 'length')"),
    "TypeError: Cannot read properties of " ++ kind ++ " (reading 'length')"⟩

/-- items.length: throws a TypeError on null and undefined receivers,
yields the length of strings and arrays, the length property of objects,
and undefined on the remaining primitives. -/
def lengthOf : JsValue → Except JsErr JsValue
  | .nullV => .error (typeErrLength "null")
  | .undef => .error (typeErrLength "undefined")
  | .str s => .ok (.num (s.length : ℚ))
  | .arr l => .ok (.num (l.length : ℚ))
  | .obj f => .ok ((f.lookup "length").getD .undef)
  | _ => .ok (.undef : JsValue)

/-- data?.response?.params of the identity service response. -/
def paramsOf (data : JsValue) : JsValue :=
  (data.getField "response").getField "params"

/-- verifyTicket after the axios call returned data, with the claimed
steamid of the request (any JavaScript value; a falsy one disables the
identity comparison, exactly as the !steamid test does).  Returns the
object the function returns: on success ok and steamid only, on failure
ok, reason and raw. -/
def verifyTicket (data claimed : JsValue) : JsValue :=
  let ok := JsValue.jsStrictEq ((paramsOf data).getField "result") (.str "OK")
  let authed := (paramsOf data).getField "steamid"
  if ok && (!claimed.truthy || JsValue.jsStrictEq claimed authed) then
    .obj [("ok", .bool true), ("steamid", authed)]
  else
    .obj [("ok", .bool false),
      ("reason", .str (if ok then "steamid_mismatch" else "auth_failed")),
      ("raw", data)]

/-- The record grantItem returns. -/
structure GrantResult where
  ok : Bool
  items : JsValue
  raw : JsValue

/-- The body of grantItem after the axios call returned data.  jsonParse
is JSON.parse: some v when the string parses to the value v, none when it
throws (the catch swallows that and leaves items as the empty array).
The length test runs outside the try, so an items value of null makes the
whole call throw. -/
def grantProcess (data : JsValue) (jsonParse : String → Option JsValue) :
    Except JsErr GrantResult :=
  let resp := JsValue.jsOr (data.getField "response") (.obj [])
  let ok0 := JsValue.jsStrictEq (resp.getField "result") (.num 1) ||
    JsValue.jsStrictEq (resp.getField "success") (.bool true)
  match resp.getField "item_json" with
  | .str s =>
    let items := (jsonParse s).getD (.arr [])
    match lengthOf items with
    | .error e => .error e
    | .ok lenV => .ok ⟨ok0 || gtZero lenV, items, data⟩
  | _ => .ok ⟨ok0, .arr [], data⟩

/-- grantItem as the routes see it: either the axios promise rejected, or
the response was processed (which can itself throw, see grantProcess). -/
def grantItemCall (oracle : Except JsErr JsValue)
    (jsonParse : String → Option JsValue) : Except JsErr GrantResult :=
  match oracle with
  | .error e => .error e
  | .ok data => grantProcess data jsonParse

/-! ## Configuration, responses, and the route handlers -/

/-- The process configuration read at startup: APPID, PUBLISHER_KEY
(absent when the environment variable is unset), the parsed DROP_KEYS
pool, and the limiter flag. -/
structure Config where
  appid : ℚ
  publisherKey : Option String
  dropKeys : List ℚ
  enableLimiter : Bool

/-- Truthiness of PUBLISHER_KEY: present and nonempty. -/
def keyTruthy (cfg : Config) : Bool :=
  match cfg.publisherKey with
  | some s => s != ""
  | none => false

/-- An HTTP response: status code and JSON body. -/
structure HttpResponse where
  status : ℕ
  body : JsValue

/-- One outbound call to a Steam service, with the parameters that
identify it: the verify call carries the appid (after Number conversion)
and ticket it sends; the grant call carries the appid, steamid, itemdefid
and quantity of the form body. -/
inductive ExtCall where
  | verify (appid : JsValue) (ticket : JsValue)
  | grant (appid : ℚ) (steamid : JsValue) (itemdefid : JsValue) (quantity : JsValue)

/-- pickRandom: arr[Math.floor(r * arr.length)], where r is the draw
Math.random returned; an out-of-range index reads undefined. -/
def pickRandom (arr : List ℚ) (r : ℚ) : JsValue :=
  let i := ⌊r * (arr.length : ℚ)⌋
  if i < 0 then .undef
  else
    match arr[i.toNat]? with
    | some q => .num q
    | none => (.undef : JsValue)

/-- The 500 body of the verify-only and grant-only catch blocks. -/
def serverErrBody (e : JsErr) : JsValue :=
  .obj [("error", .str "server_error"), ("details", JsValue.jsOr e.status e.message)]

/-- The 500 body of the open-chest catch block (with the extra String(e)
fallback). -/
def serverErrBodyOC (e : JsErr) : JsValue :=
  .obj [("error", .str "server_error"),
    ("details", JsValue.jsOr (JsValue.jsOr e.status e.message) (.str e.asString))]

/-- GET /health. -/
def healthRoute (cfg : Config) : HttpResponse :=
  ⟨200, .obj [("ok", .bool true), ("appid", .num cfg.appid),
    ("drop_keys", .arr (cfg.dropKeys.map JsValue.num)),
    ("has_key", .bool (keyTruthy cfg)),
    ("key_prefix",
      match cfg.publisherKey with
      | some k => if k != "" then .str (String.mk (k.toList.take 6 ++ ['…'])) else .nullV
      | none => .nullV),
    ("limiter_enabled", .bool cfg.enableLimiter)]⟩

/-- The destructuring default appid = APPID of verify-only: the default
applies exactly when the field is undefined (other falsy values stay). -/
def appidOrDefault (cfg : Config) (body : JsValue) : JsValue :=
  match body.getField "appid" with
  | .undef => .num cfg.appid
  | v => v

/-- POST /verify-only.  vO is the outcome of the axios GET against the
identity service; the returned list holds the outbound calls made. -/
def verifyOnly (cfg : Config) (body : JsValue) (vO : Except JsErr JsValue) :
    HttpResponse × List ExtCall :=
  let appid := appidOrDefault cfg body
  let steamid := body.getField "steamid"
  let ticket := body.getField "ticket"
  if !appid.truthy || !steamid.truthy || !ticket.truthy then
    (⟨400, .obj [("error", .str "missing_fields")]⟩, [])
  else
    let call := ExtCall.verify (toNumValue appid) ticket
    match vO with
    | .error e => (⟨500, serverErrBody e⟩, [call])
    | .ok data =>
      let v := verifyTicket data steamid
      if !(v.getField "ok").truthy then
        (⟨401, .obj [("ok", .bool false), ("reason", v.getField "reason"),
          ("raw", v.getField "raw")]⟩, [call])
      else
        (⟨200, .obj [("ok", .bool true), ("steamid", v.getField "steamid")]⟩, [call])

/-- POST /grant-only. -/
def grantOnly (cfg : Config) (body : JsValue) (gO : Except JsErr JsValue)
    (jsonParse : String → Option JsValue) : HttpResponse × List ExtCall :=
  let steamid := body.getField "steamid"
  let itemdefid := body.getField "itemdefid"
  if !steamid.truthy || !itemdefid.truthy then
    (⟨400, .obj [("error", .str "missing_fields")]⟩, [])
  else if !keyTruthy cfg then
    (⟨500, .obj [("error", .str "missing_publisher_key")]⟩, [])
  else
    let call := ExtCall.grant cfg.appid steamid (toNumValue itemdefid) (.num 1)
    match grantItemCall gO jsonParse with
    | .error e => (⟨500, serverErrBody e⟩, [call])
    | .ok g =>
      if !g.ok then
        (⟨502, .obj [("ok", .bool false), ("reason", .str "grant_failed"),
          ("raw", g.raw)]⟩, [call])
      else
        (⟨200, .obj [("ok", .bool true), ("granted", g.items), ("raw", g.raw)]⟩, [call])

/-- POST /open-chest.  vO and gO are the outcomes of the two axios calls,
r the Math.random draw. -/
def openChest (cfg : Config) (body : JsValue) (vO gO : Except JsErr JsValue)
    (jsonParse : String → Option JsValue) (r : ℚ) : HttpResponse × List ExtCall :=
  let appid := body.getField "appid"
  let steamid := body.getField "steamid"
  let ticket := body.getField "ticket"
  if !appid.truthy || !steamid.truthy || !ticket.truthy then
    (⟨400, .obj [("error", .str "missing_fields")]⟩, [])
  else if !keyTruthy cfg then
    (⟨500, .obj [("error", .str "missing_publisher_key")]⟩, [])
  else if cfg.dropKeys.length == 0 then
    (⟨500, .obj [("error", .str "server_not_configured")]⟩, [])
  else
    let vcall := ExtCall.verify (toNumValue appid) ticket
    match vO with
    | .error e => (⟨500, serverErrBodyOC e⟩, [vcall])
    | .ok data =>
      let v := verifyTicket data steamid
      if !(v.getField "ok").truthy then
        (⟨401, .obj [("error", JsValue.jsOr (v.getField "reason") (.str "auth_failed")),
          ("raw", v.getField "raw")]⟩, [vcall])
      else
        let keyDefId := pickRandom cfg.dropKeys r
        let gcall := ExtCall.grant cfg.appid steamid keyDefId (.num 1)
        match grantItemCall gO jsonParse with
        | .error e => (⟨500, serverErrBodyOC e⟩, [vcall, gcall])
        | .ok g =>
          if !g.ok then
            (⟨502, .obj [("error", .str "grant_failed"), ("raw", g.raw)]⟩, [vcall, gcall])
          else
            (⟨200, .obj [("ok", .bool true), ("itemdefid", keyDefId),
              ("grant", g.raw)]⟩, [vcall, gcall])

/-! ## Specification-side predicates (for comparison with the code) -/

/-- The success criterion exactly as the specification words it for the
grant call: the numeric result field is 1, or the boolean success field
is true, or the item_json string parses to a list holding at least one
item. -/
def specGrantSuccess (data : JsValue) (jsonParse : String → Option JsValue) : Prop :=
  (JsValue.jsOr (data.getField "response") (.obj [])).getField "result" = .num 1 ∨
  (JsValue.jsOr (data.getField "response") (.obj [])).getField "success" = .bool true ∨
  (∃ s l, (JsValue.jsOr (data.getField "response") (.obj [])).getField "item_json" = .str s ∧
    jsonParse s = some (.arr l) ∧ l ≠ [])

/-- The length test of grantItem as a predicate on the parsed items
value: false when reading .length would throw, else the length compared
greater than zero. -/
def lengthPos (v : JsValue) : Bool :=
  match lengthOf v with
  | .ok lv => gtZero lv
  | .error _ => false

/-! ## Concrete fixtures for witnesses and counterexamples -/

/-- An identity service response reporting OK for steamid 765. -/
def vOkData : JsValue :=
  .obj [("response", .obj [("params", .obj [("result", .str "OK"),
    ("steamid", .str "765")])])]

/-- A request body with all three open-chest fields present. -/
def fullBody : JsValue :=
  .obj [("appid", .num 480), ("steamid", .str "765"), ("ticket", .str "T")]

/-- An inventory service response with result 1 and no item_json. -/
def gOkData : JsValue := .obj [("response", .obj [("result", .num 1)])]

/-- A configuration with a key and a two-element pool. -/
def cfgTwo : Config := ⟨480, some "secretkey123", [10001, 10002], false⟩

/-- An inventory response whose numeric and boolean success fields are
false but whose item_json is the JSON text of the string ab. -/
def grantRespAB : JsValue :=
  .obj [("response", .obj [("result", .num 0), ("success", .bool false),
    ("item_json", .str "\"ab\"")])]

/-- JSON.parse restricted to the one string the fixture uses: the JSON
text consisting of a quoted two-character string parses to that string. -/
def jsonParseAB : String → Option JsValue :=
  fun s => if s = "\"ab\"" then some (.str "ab") else none

/-- A seven-character publisher key ending in the ellipsis character. -/
def oddKey : String := "abcdef…"

/-- An upstream error carrying an HTTP status. -/
def err503 : JsErr := ⟨.num 503, .str "Request failed with status code 503",
  "Error: Request failed with status code 503"⟩

/-- A request body whose appid 481 differs from the configured 480. -/
def body481 : JsValue :=
  .obj [("appid", .num 481), ("steamid", .str "765"), ("ticket", .str "T")]

/-- The shape of every number the reward-pool parser can produce: an
integer scaled by a power of ten (ranges and hex literals give integers,
decimal literals give finite decimal fractions), within the finite-double
bound the parser enforces. -/
def goodKey (q : ℚ) : Prop :=
  (∃ m : ℤ, ∃ t : ℕ, q = (m : ℚ) / 10 ^ t) ∧ |q| < dblLimit

/-! # Helper lemmas -/

theorem jsStrictEq_str_iff (v : JsValue) (s : String) :
    JsValue.jsStrictEq v (.str s) = true ↔ v = .str s := by
  cases v <;> simp [JsValue.jsStrictEq]

theorem jsStrictEq_num_iff (v : JsValue) (q : ℚ) :
    JsValue.jsStrictEq v (.num q) = true ↔ v = .num q := by
  cases v <;> simp [JsValue.jsStrictEq]

theorem jsStrictEq_bool_iff (v : JsValue) (b : Bool) :
    JsValue.jsStrictEq v (.bool b) = true ↔ v = .bool b := by
  cases v <;> simp [JsValue.jsStrictEq]

theorem getField_pair_head (k : String) (x : JsValue) (rest : List (String × JsValue)) :
    (JsValue.obj ((k, x) :: rest)).getField k = x := by
  simp [JsValue.getField, List.lookup]

theorem getField_pair_tail (k k2 : String) (x : JsValue) (rest : List (String × JsValue))
    (hne : k2 ≠ k) : (JsValue.obj ((k, x) :: rest)).getField k2 =
      (JsValue.obj rest).getField k2 := by
  have hb : (k2 == k) = false := beq_eq_false_iff_ne.mpr hne
  simp [JsValue.getField, List.lookup, hb]

/-! # Claim C3 -/

/-- C3: verifyTicket reports success exactly when the identity service
answered result OK and either no truthy claimed steamid was supplied or
the claimed steamid strict-equals the returned one; every other outcome
is a failure, whose reason is steamid_mismatch when the service reported
OK and auth_failed otherwise. -/
theorem verifyTicket_success_iff (data claimed : JsValue) :
    ((verifyTicket data claimed).getField "ok" = .bool true ↔
      ((paramsOf data).getField "result" = .str "OK" ∧
        (claimed.truthy = false ∨
          JsValue.jsStrictEq claimed ((paramsOf data).getField "steamid") = true))) ∧
    ((verifyTicket data claimed).getField "ok" = .bool false →
      (paramsOf data).getField "result" = .str "OK" →
      (verifyTicket data claimed).getField "reason" = .str "steamid_mismatch") ∧
    ((verifyTicket data claimed).getField "ok" = .bool false →
      ¬(paramsOf data).getField "result" = .str "OK" →
      (verifyTicket data claimed).getField "reason" = .str "auth_failed") ∧
    ((verifyTicket data claimed).getField "ok" = .bool true ∨
      (verifyTicket data claimed).getField "ok" = .bool false) := by
  unfold verifyTicket
  by_cases hc : (JsValue.jsStrictEq ((paramsOf data).getField "result") (.str "OK") &&
      (!claimed.truthy || JsValue.jsStrictEq claimed ((paramsOf data).getField "steamid"))) = true
  · rw [if_pos hc]
    simp only [Bool.and_eq_true, Bool.or_eq_true, Bool.not_eq_true'] at hc
    obtain ⟨h1, h2⟩ := hc
    rw [jsStrictEq_str_iff] at h1
    refine ⟨?_, ?_, ?_, ?_⟩
    · simp [getField_pair_head, h1, h2]
    · intro hfalse
      rw [getField_pair_head] at hfalse
      exact absurd hfalse (by simp)
    · intro hfalse
      rw [getField_pair_head] at hfalse
      exact absurd hfalse (by simp)
    · left; exact getField_pair_head _ _ _
  · rw [if_neg hc]
    simp only [Bool.and_eq_true, Bool.or_eq_true, Bool.not_eq_true', not_and_or, not_or] at hc
    refine ⟨?_, ?_, ?_, ?_⟩
    · rw [getField_pair_head]
      constructor
      · intro h; exact absurd h (by simp)
      · rintro ⟨h1, h2⟩
        rw [← jsStrictEq_str_iff] at h1
        rcases hc with hc | ⟨hc1, hc2⟩
        · exact absurd h1 hc
        · rcases h2 with h2 | h2
          · exact absurd h2 (by simpa using hc1)
          · exact absurd h2 hc2
    · intro _ hres
      rw [getField_pair_tail _ _ _ _ (by decide), getField_pair_head]
      rw [← jsStrictEq_str_iff] at hres
      simp [hres]
    · intro _ hres
      rw [getField_pair_tail _ _ _ _ (by decide), getField_pair_head]
      rw [← jsStrictEq_str_iff] at hres
      simp only [Bool.not_eq_true] at hres
      simp [hres]
    · right; exact getField_pair_head _ _ _

/-- C3 witness: a service response reporting OK for steamid 765 against
the differing claimed steamid 999 is a failure tagged steamid_mismatch. -/
theorem verifyTicket_success_iff_witness :
    (verifyTicket vOkData (.str "999")).getField "reason" = .str "steamid_mismatch" :=
  (verifyTicket_success_iff vOkData (.str "999")).2.1 (by with_unfolding_all rfl)
    (by with_unfolding_all rfl)

/-! # Claim C5 -/

/-- C5 counterexample: on a successful verification (service reports OK,
no claimed steamid supplied) the returned object carries no raw field at
all, refuting the claim that the raw upstream response is attached on
success as well as on failure. -/
theorem verifyTicket_raw_missing_on_success :
    (verifyTicket vOkData .undef).getField "ok" = .bool true ∧
    (verifyTicket vOkData .undef).getField "raw" = .undef :=
  ⟨by with_unfolding_all rfl, by with_unfolding_all rfl⟩

/-- C5 amended: the VerificationResult carries the raw upstream response
on every failure; a success result carries only ok and steamid, and its
raw field is undefined. -/
theorem verifyTicket_raw_on_failure (data claimed : JsValue) :
    ((verifyTicket data claimed).getField "ok" = .bool false →
      (verifyTicket data claimed).getField "raw" = data) ∧
    ((verifyTicket data claimed).getField "ok" = .bool true →
      (verifyTicket data claimed).getField "raw" = .undef) := by
  unfold verifyTicket
  by_cases hc : (JsValue.jsStrictEq ((paramsOf data).getField "result") (.str "OK") &&
      (!claimed.truthy || JsValue.jsStrictEq claimed ((paramsOf data).getField "steamid"))) = true
  · rw [if_pos hc]
    constructor
    · intro h
      rw [getField_pair_head] at h
      exact absurd h (by simp)
    · intro _
      rw [getField_pair_tail _ _ _ _ (by decide), getField_pair_tail _ _ _ _ (by decide)]
      simp [JsValue.getField]
  · rw [if_neg hc]
    constructor
    · intro _
      rw [getField_pair_tail _ _ _ _ (by decide), getField_pair_tail _ _ _ _ (by decide),
        getField_pair_head]
    · intro h
      rw [getField_pair_head] at h
      exact absurd h (by simp)

/-- C5 amended witness: an auth failure (empty response) carries the raw
response data. -/
theorem verifyTicket_raw_on_failure_witness :
    (verifyTicket (.obj []) .undef).getField "raw" = .obj [] :=
  (verifyTicket_raw_on_failure (.obj []) .undef).1 (by with_unfolding_all rfl)

/-! # Claim C6 -/

/-- C6: when appid, steamid and ticket are all present and the publisher
key is configured but the reward pool is empty, open-chest answers 500
server_not_configured with no outbound call made; the statement holds for
every identity and inventory oracle, hence even when the identity service
would succeed. -/
theorem openChest_empty_pool (cfg : Config) (body : JsValue) (vO gO : Except JsErr JsValue)
    (jsonParse : String → Option JsValue) (r : ℚ)
    (ha : (body.getField "appid").truthy = true)
    (hs : (body.getField "steamid").truthy = true)
    (ht : (body.getField "ticket").truthy = true)
    (hk : keyTruthy cfg = true)
    (hd : cfg.dropKeys = []) :
    openChest cfg body vO gO jsonParse r =
      (⟨500, .obj [("error", .str "server_not_configured")]⟩, []) := by
  simp [openChest, ha, hs, ht, hk, hd]

/-- C6 witness: a fully populated request against an empty pool, with
oracles under which verification and grant would both succeed. -/
theorem openChest_empty_pool_witness :
    openChest ⟨480, some "secretkey123", [], false⟩ fullBody (.ok vOkData) (.ok gOkData)
      (fun _ => none) (1 / 2) =
      (⟨500, .obj [("error", .str "server_not_configured")]⟩, []) :=
  openChest_empty_pool _ _ _ _ _ _ (by with_unfolding_all rfl) (by with_unfolding_all rfl)
    (by with_unfolding_all rfl) (by with_unfolding_all rfl) rfl

/-! # Claim C8 -/

/-- C8 counterexample: with the publisher key set to the seven-character
value abcdef followed by the ellipsis character, the health payload's
key_prefix equals the full key value, refuting the claim that the full
key is never echoed. -/
theorem health_key_pfx_counterexample :
    (⟨480, some oddKey, [], false⟩ : Config).publisherKey = some oddKey ∧
    (healthRoute ⟨480, some oddKey, [], false⟩).body.getField "key_prefix" = .str oddKey :=
  ⟨rfl, by with_unfolding_all rfl⟩

/-- C8 amended: when the publisher key is a truthy string k, the health
payload reports has_key true and key_prefix is exactly the first six
characters of k followed by an ellipsis — which differs from the full key
whenever k is not seven characters long (a seven-character key ending in
the ellipsis character is the one shape the prefix can reproduce); when
the key is absent or empty, key_prefix is null and has_key is false. -/
theorem health_key_pfx (cfg : Config) :
    (∀ k, cfg.publisherKey = some k → k ≠ "" →
      (healthRoute cfg).body.getField "key_prefix" =
        .str (String.mk (k.toList.take 6 ++ ['…'])) ∧
      (healthRoute cfg).body.getField "has_key" = .bool true ∧
      (k.toList.length ≠ 7 →
        (healthRoute cfg).body.getField "key_prefix" ≠ .str k)) ∧
    (keyTruthy cfg = false →
      (healthRoute cfg).body.getField "key_prefix" = .nullV ∧
      (healthRoute cfg).body.getField "has_key" = .bool false) := by
  constructor
  · intro k hk hne
    have hkt : keyTruthy cfg = true := by
      simp [keyTruthy, hk, hne]
    have h1 : (healthRoute cfg).body.getField "key_prefix" =
        .str (String.mk (k.toList.take 6 ++ ['…'])) := by
      simp only [healthRoute, JsValue.getField, List.lookup, hk]
      have hb : (k != "") = true := by simpa using hne
      simp [hb, String.toList]
    refine ⟨h1, ?_, ?_⟩
    · simp [healthRoute, JsValue.getField, List.lookup, hkt]
    · intro hlen heq
      rw [h1] at heq
      have hdata : k.toList.take 6 ++ ['…'] = k.data := by
        have := JsValue.str.inj heq
        exact congrArg String.data this
      have : (k.toList.take 6 ++ ['…']).length = k.data.length := by rw [hdata]
      simp only [List.length_append, List.length_take, List.length_cons,
        List.length_nil] at this
      have hkl : k.toList.length = k.data.length := rfl
      omega
  · intro hkf
    match hpk : cfg.publisherKey with
    | none =>
      constructor <;> simp [healthRoute, JsValue.getField, List.lookup, hpk, keyTruthy]
    | some s =>
      have hs : s = "" := by
        by_contra hne
        rw [keyTruthy, hpk] at hkf
        simp [hne] at hkf
      subst hs
      constructor <;> simp [healthRoute, JsValue.getField, List.lookup, hpk, keyTruthy]

/-- C8 amended witness: a twelve-character key is echoed as its
six-character prefix plus an ellipsis, which differs from the key. -/
theorem health_key_pfx_witness :
    (healthRoute cfgTwo).body.getField "key_prefix" = .str "secret…" ∧
    (healthRoute cfgTwo).body.getField "key_prefix" ≠ .str "secretkey123" := by
  have h := (health_key_pfx cfgTwo).1 "secretkey123" rfl (by decide)
  refine ⟨?_, h.2.2 (by decide)⟩
  rw [h.1]
  with_unfolding_all rfl

/-! # Claim C2 -/

/-- C2 counterexample: with the numeric and boolean success fields false
and item_json the JSON text of the two-character string ab — which parses
to a string, not to a list of items — grantItem still reports success,
because the length of the parsed string compares greater than zero; so
the three-way OR as the claim words it does not characterize success. -/
theorem grantItem_success_without_items :
    grantProcess grantRespAB jsonParseAB = .ok ⟨true, .str "ab", grantRespAB⟩ ∧
    ¬ specGrantSuccess grantRespAB jsonParseAB := by
  constructor
  · with_unfolding_all rfl
  · intro h
    rcases h with h | h | ⟨s, l, hs, hp, hl⟩
    · rw [show (JsValue.jsOr (grantRespAB.getField "response") (.obj [])).getField "result" =
          .num 0 from by with_unfolding_all rfl] at h
      exact absurd (JsValue.num.inj h) (by norm_num)
    · rw [show (JsValue.jsOr (grantRespAB.getField "response") (.obj [])).getField "success" =
          .bool false from by with_unfolding_all rfl] at h
      exact absurd (JsValue.bool.inj h) (by simp)
    · rw [show (JsValue.jsOr (grantRespAB.getField "response") (.obj [])).getField "item_json" =
          .str "\"ab\"" from by with_unfolding_all rfl] at hs
      have hseq : s = "\"ab\"" := (JsValue.str.inj hs).symm
      subst hseq
      rw [show jsonParseAB "\"ab\"" = some (.str "ab") from by with_unfolding_all rfl] at hp
      exact JsValue.noConfusion (Option.some.inj hp)

/-- C2 amended: whenever grantItem completes without throwing (a parsed
item_json of JSON null makes the length read throw), it reports success
exactly when the numeric result field is 1, or the boolean success field
is true, or item_json is a string whose parsed value (the empty array
when parsing throws) has a length comparing greater than zero — an array
with at least one element, but equally a non-empty string or an object
with a positive length property; and an unparseable item_json leaves the
item list empty, so success is then governed by the first two tests
alone. -/
theorem grantItem_success_iff (data : JsValue) (jsonParse : String → Option JsValue)
    (g : GrantResult) (h : grantProcess data jsonParse = .ok g) :
    (g.ok = true ↔
      ((JsValue.jsOr (data.getField "response") (.obj [])).getField "result" = .num 1 ∨
        (JsValue.jsOr (data.getField "response") (.obj [])).getField "success" = .bool true ∨
        (∃ s, (JsValue.jsOr (data.getField "response") (.obj [])).getField "item_json" = .str s ∧
          lengthPos ((jsonParse s).getD (.arr [])) = true))) ∧
    (∀ s, (JsValue.jsOr (data.getField "response") (.obj [])).getField "item_json" = .str s →
      jsonParse s = none → g.items = .arr []) := by
  simp only [grantProcess] at h
  cases hij : (JsValue.jsOr (data.getField "response") (.obj [])).getField "item_json" with
  | str s0 =>
    rw [hij] at h
    simp only [] at h
    cases hlen : lengthOf ((jsonParse s0).getD (.arr [])) with
    | error e => rw [hlen] at h; exact absurd h (by simp)
    | ok lenV =>
      rw [hlen] at h
      simp only [Except.ok.injEq] at h
      subst h
      constructor
      · simp only [Bool.or_eq_true, jsStrictEq_num_iff, jsStrictEq_bool_iff]
        constructor
        · rintro ((h1 | h2) | h3)
          · exact Or.inl h1
          · exact Or.inr (Or.inl h2)
          · refine Or.inr (Or.inr ⟨s0, rfl, ?_⟩)
            simp [lengthPos, hlen, h3]
        · rintro (h1 | h2 | ⟨s, hs, hpos⟩)
          · exact Or.inl (Or.inl h1)
          · exact Or.inl (Or.inr h2)
          · have : s = s0 := (JsValue.str.inj hs).symm
            subst this
            simp only [lengthPos, hlen] at hpos
            exact Or.inr hpos
      · intro s hs hnone
        have : s = s0 := (JsValue.str.inj hs).symm
        subst this
        simp [hnone]
  | undef =>
    rw [hij] at h
    simp only [Except.ok.injEq] at h
    subst h
    constructor
    · simp only [Bool.or_eq_true, jsStrictEq_num_iff, jsStrictEq_bool_iff]
      constructor
      · rintro (h1 | h2)
        · exact Or.inl h1
        · exact Or.inr (Or.inl h2)
      · rintro (h1 | h2 | ⟨s, hs, _⟩)
        · exact Or.inl h1
        · exact Or.inr h2
        · exact JsValue.noConfusion hs
    · intro s hs _
      exact absurd hs (by exact fun hh => JsValue.noConfusion hh)
  | nullV =>
    rw [hij] at h
    simp only [Except.ok.injEq] at h
    subst h
    refine ⟨?_, fun s hs _ => absurd hs (fun hh => JsValue.noConfusion hh)⟩
    simp only [Bool.or_eq_true, jsStrictEq_num_iff, jsStrictEq_bool_iff]
    exact ⟨fun h => h.elim Or.inl (Or.inr ∘ Or.inl),
      fun h => h.elim Or.inl (fun h2 => h2.elim Or.inr (fun ⟨s, hs, _⟩ => (JsValue.noConfusion hs)))⟩
  | nan =>
    rw [hij] at h
    simp only [Except.ok.injEq] at h
    subst h
    refine ⟨?_, fun s hs _ => absurd hs (fun hh => JsValue.noConfusion hh)⟩
    simp only [Bool.or_eq_true, jsStrictEq_num_iff, jsStrictEq_bool_iff]
    exact ⟨fun h => h.elim Or.inl (Or.inr ∘ Or.inl),
      fun h => h.elim Or.inl (fun h2 => h2.elim Or.inr (fun ⟨s, hs, _⟩ => (JsValue.noConfusion hs)))⟩
  | bool b =>
    rw [hij] at h
    simp only [Except.ok.injEq] at h
    subst h
    refine ⟨?_, fun s hs _ => absurd hs (fun hh => JsValue.noConfusion hh)⟩
    simp only [Bool.or_eq_true, jsStrictEq_num_iff, jsStrictEq_bool_iff]
    exact ⟨fun h => h.elim Or.inl (Or.inr ∘ Or.inl),
      fun h => h.elim Or.inl (fun h2 => h2.elim Or.inr (fun ⟨s, hs, _⟩ => (JsValue.noConfusion hs)))⟩
  | num q =>
    rw [hij] at h
    simp only [Except.ok.injEq] at h
    subst h
    refine ⟨?_, fun s hs _ => absurd hs (fun hh => JsValue.noConfusion hh)⟩
    simp only [Bool.or_eq_true, jsStrictEq_num_iff, jsStrictEq_bool_iff]
    exact ⟨fun h => h.elim Or.inl (Or.inr ∘ Or.inl),
      fun h => h.elim Or.inl (fun h2 => h2.elim Or.inr (fun ⟨s, hs, _⟩ => (JsValue.noConfusion hs)))⟩
  | arr l =>
    rw [hij] at h
    simp only [Except.ok.injEq] at h
    subst h
    refine ⟨?_, fun s hs _ => absurd hs (fun hh => JsValue.noConfusion hh)⟩
    simp only [Bool.or_eq_true, jsStrictEq_num_iff, jsStrictEq_bool_iff]
    exact ⟨fun h => h.elim Or.inl (Or.inr ∘ Or.inl),
      fun h => h.elim Or.inl (fun h2 => h2.elim Or.inr (fun ⟨s, hs, _⟩ => (JsValue.noConfusion hs)))⟩
  | obj f =>
    rw [hij] at h
    simp only [Except.ok.injEq] at h
    subst h
    refine ⟨?_, fun s hs _ => absurd hs (fun hh => JsValue.noConfusion hh)⟩
    simp only [Bool.or_eq_true, jsStrictEq_num_iff, jsStrictEq_bool_iff]
    exact ⟨fun h => h.elim Or.inl (Or.inr ∘ Or.inl),
      fun h => h.elim Or.inl (fun h2 => h2.elim Or.inr (fun ⟨s, hs, _⟩ => (JsValue.noConfusion hs)))⟩

/-- C2 amended witness: a response with numeric result 1 and no item_json
is a success, and the success criterion holds through its first
disjunct. -/
theorem grantItem_success_iff_witness :
    grantProcess gOkData (fun _ => none) = .ok ⟨true, .arr [], gOkData⟩ ∧
    ((true : Bool) = true ↔
      ((JsValue.jsOr (gOkData.getField "response") (.obj [])).getField "result" = .num 1 ∨
        (JsValue.jsOr (gOkData.getField "response") (.obj [])).getField "success" = .bool true ∨
        (∃ s, (JsValue.jsOr (gOkData.getField "response") (.obj [])).getField "item_json" = .str s ∧
          lengthPos (((fun _ => (none : Option JsValue)) s).getD (.arr [])) = true))) :=
  ⟨by with_unfolding_all rfl,
    (grantItem_success_iff gOkData (fun _ => none) ⟨true, .arr [], gOkData⟩
      (by with_unfolding_all rfl)).1⟩

/-! # Claim C7 -/

/-- C7: each of the three operations converts an upstream rejection (and,
for the grant, also the exception thrown while processing the inventory
response) into a 500 server_error response whose details field is the
upstream status when truthy and the error message otherwise (open-chest
adds a final String(e) fallback); nothing propagates: the handlers are
total functions into responses. -/
theorem routes_convert_errors (cfg : Config) (body : JsValue) (e : JsErr)
    (gO : Except JsErr JsValue) (jsonParse : String → Option JsValue) (r : ℚ)
    (data : JsValue) :
    ((appidOrDefault cfg body).truthy = true →
      (body.getField "steamid").truthy = true →
      (body.getField "ticket").truthy = true →
      (verifyOnly cfg body (.error e)).fst = ⟨500, serverErrBody e⟩) ∧
    ((body.getField "steamid").truthy = true →
      (body.getField "itemdefid").truthy = true →
      keyTruthy cfg = true →
      grantItemCall gO jsonParse = .error e →
      (grantOnly cfg body gO jsonParse).fst = ⟨500, serverErrBody e⟩) ∧
    ((body.getField "appid").truthy = true →
      (body.getField "steamid").truthy = true →
      (body.getField "ticket").truthy = true →
      keyTruthy cfg = true →
      cfg.dropKeys ≠ [] →
      (openChest cfg body (.error e) gO jsonParse r).fst = ⟨500, serverErrBodyOC e⟩) ∧
    ((body.getField "appid").truthy = true →
      (body.getField "steamid").truthy = true →
      (body.getField "ticket").truthy = true →
      keyTruthy cfg = true →
      cfg.dropKeys ≠ [] →
      (verifyTicket data (body.getField "steamid")).getField "ok" = .bool true →
      grantItemCall gO jsonParse = .error e →
      (openChest cfg body (.ok data) gO jsonParse r).fst = ⟨500, serverErrBodyOC e⟩) := by
  refine ⟨?_, ?_, ?_, ?_⟩
  · intro ha hs ht
    simp [verifyOnly, ha, hs, ht]
  · intro hs hi hk hg
    simp [grantOnly, hs, hi, hk, hg]
  · intro ha hs ht hk hd
    have hdl : (cfg.dropKeys.length == 0) = false := by
      simp [List.length_eq_zero]
      exact hd
    simp [openChest, ha, hs, ht, hk, hdl]
  · intro ha hs ht hk hd hok hg
    have hdl : (cfg.dropKeys.length == 0) = false := by
      simp [List.length_eq_zero]
      exact hd
    have hvt : ((verifyTicket data (body.getField "steamid")).getField "ok").truthy = true := by
      rw [hok]
      rfl
    simp [openChest, ha, hs, ht, hk, hdl, hvt, hg]

/-- C7 witness: each route at a concrete request, with the upstream
rejection carrying HTTP status 503, answers 500 with the status as its
detail. -/
theorem routes_convert_errors_witness :
    (verifyOnly cfgTwo fullBody (.error err503)).fst = ⟨500, serverErrBody err503⟩ ∧
    (grantOnly cfgTwo (.obj [("steamid", .str "765"), ("itemdefid", .num 10001)])
      (.error err503) (fun _ => none)).fst = ⟨500, serverErrBody err503⟩ ∧
    (openChest cfgTwo fullBody (.error err503) (.ok gOkData) (fun _ => none)
      (1 / 2)).fst = ⟨500, serverErrBodyOC err503⟩ ∧
    (openChest cfgTwo fullBody (.ok vOkData) (.error err503) (fun _ => none)
      (1 / 2)).fst = ⟨500, serverErrBodyOC err503⟩ :=
  ⟨(routes_convert_errors cfgTwo fullBody err503 (.error err503) (fun _ => none)
      (1 / 2) vOkData).1 (by with_unfolding_all rfl) (by with_unfolding_all rfl)
      (by with_unfolding_all rfl),
    (routes_convert_errors cfgTwo (.obj [("steamid", .str "765"), ("itemdefid", .num 10001)])
      err503 (.error err503) (fun _ => none) (1 / 2) vOkData).2.1
      (by with_unfolding_all rfl) (by with_unfolding_all rfl) (by with_unfolding_all rfl) rfl,
    (routes_convert_errors cfgTwo fullBody err503 (.ok gOkData) (fun _ => none)
      (1 / 2) vOkData).2.2.1 (by with_unfolding_all rfl) (by with_unfolding_all rfl)
      (by with_unfolding_all rfl) (by with_unfolding_all rfl) (by decide),
    (routes_convert_errors cfgTwo fullBody err503 (.error err503) (fun _ => none)
      (1 / 2) vOkData).2.2.2 (by with_unfolding_all rfl) (by with_unfolding_all rfl)
      (by with_unfolding_all rfl) (by with_unfolding_all rfl) (by decide)
      (by with_unfolding_all rfl) rfl⟩

/-! # Claim C10 -/

/-- C10: every verification call open-chest makes carries the Number
conversion of the appid of the request body, while every grant call
carries the configured APPID; so when the request appid converts to
something other than the configured one, the two calls use different
application identifiers. -/
theorem openChest_call_appids (cfg : Config) (body : JsValue)
    (vO gO : Except JsErr JsValue) (jsonParse : String → Option JsValue) (r : ℚ) :
    (∀ a t, ExtCall.verify a t ∈ (openChest cfg body vO gO jsonParse r).snd →
      a = toNumValue (body.getField "appid")) ∧
    (∀ a s i qy, ExtCall.grant a s i qy ∈ (openChest cfg body vO gO jsonParse r).snd →
      a = cfg.appid) ∧
    (toNumValue (body.getField "appid") ≠ .num cfg.appid →
      ∀ a t a2 s i qy, ExtCall.verify a t ∈ (openChest cfg body vO gO jsonParse r).snd →
        ExtCall.grant a2 s i qy ∈ (openChest cfg body vO gO jsonParse r).snd →
        a ≠ .num a2) := by
  have key : ∀ c ∈ (openChest cfg body vO gO jsonParse r).snd,
      (∃ t, c = ExtCall.verify (toNumValue (body.getField "appid")) t) ∨
      (∃ s i qy, c = ExtCall.grant cfg.appid s i qy) := by
    intro c hc
    by_cases h1 : (!(body.getField "appid").truthy || !(body.getField "steamid").truthy ||
        !(body.getField "ticket").truthy) = true
    · simp [openChest, h1] at hc
    · by_cases h2 : (!keyTruthy cfg) = true
      · simp [openChest, h1, h2] at hc
      · by_cases h3 : (cfg.dropKeys.length == 0) = true
        · simp [openChest, h1, h2, h3] at hc
        · cases vO with
          | error e =>
            simp [openChest, h1, h2, h3] at hc
            exact Or.inl ⟨_, hc⟩
          | ok data =>
            by_cases h4 :
                (!((verifyTicket data (body.getField "steamid")).getField "ok").truthy) = true
            · simp [openChest, h1, h2, h3, h4] at hc
              exact Or.inl ⟨_, hc⟩
            · cases hg : grantItemCall gO jsonParse with
              | error e =>
                simp [openChest, h1, h2, h3, h4, hg] at hc
                rcases hc with hc | hc
                · exact Or.inl ⟨_, hc⟩
                · exact Or.inr ⟨_, _, _, hc⟩
              | ok g =>
                by_cases h5 : (!g.ok) = true
                · simp [openChest, h1, h2, h3, h4, hg, h5] at hc
                  rcases hc with hc | hc
                  · exact Or.inl ⟨_, hc⟩
                  · exact Or.inr ⟨_, _, _, hc⟩
                · simp [openChest, h1, h2, h3, h4, hg, h5] at hc
                  rcases hc with hc | hc
                  · exact Or.inl ⟨_, hc⟩
                  · exact Or.inr ⟨_, _, _, hc⟩
  refine ⟨?_, ?_, ?_⟩
  · intro a t hmem
    rcases key _ hmem with ⟨t2, heq⟩ | ⟨s, i, qy, heq⟩
    · exact (ExtCall.verify.inj heq).1
    · exact ExtCall.noConfusion heq
  · intro a s i qy hmem
    rcases key _ hmem with ⟨t2, heq⟩ | ⟨s2, i2, qy2, heq⟩
    · exact ExtCall.noConfusion heq
    · exact (ExtCall.grant.inj heq).1
  · intro hne a t a2 s i qy hv hg heq
    rcases key _ hv with ⟨t2, heqv⟩ | ⟨s2, i2, qy2, heqv⟩
    · rcases key _ hg with ⟨t3, heqg⟩ | ⟨s3, i3, qy3, heqg⟩
      · exact ExtCall.noConfusion heqg
      · have ha : a = toNumValue (body.getField "appid") := (ExtCall.verify.inj heqv).1
        have ha2 : a2 = cfg.appid := (ExtCall.grant.inj heqg).1
        rw [ha, ha2] at heq
        exact hne heq
    · exact ExtCall.noConfusion heqv

/-- C10 witness: a successful open-chest run whose request carries
appid 481 against the configured 480 verifies with 481 and grants with
480, and the two identifiers differ. -/
theorem openChest_call_appids_witness :
    (openChest cfgTwo body481 (.ok vOkData) (.ok gOkData) (fun _ => none) (1 / 2)).snd =
      [ExtCall.verify (.num 481) (.str "T"),
        ExtCall.grant 480 (.str "765") (.num 10002) (.num 1)] ∧
    (JsValue.num 481 ≠ JsValue.num (480 : ℚ)) := by
  have hsnd : (openChest cfgTwo body481 (.ok vOkData) (.ok gOkData) (fun _ => none)
      (1 / 2)).snd = [ExtCall.verify (.num 481) (.str "T"),
        ExtCall.grant 480 (.str "765") (.num 10002) (.num 1)] := by
    with_unfolding_all rfl
  refine ⟨hsnd, ?_⟩
  have hne : toNumValue (body481.getField "appid") ≠ .num cfgTwo.appid := by
    rw [show toNumValue (body481.getField "appid") = .num 481 from by with_unfolding_all rfl]
    intro h
    have := JsValue.num.inj h
    norm_num [cfgTwo] at this
  have hv : ExtCall.verify (.num 481) (.str "T") ∈
      (openChest cfgTwo body481 (.ok vOkData) (.ok gOkData) (fun _ => none) (1 / 2)).snd := by
    rw [hsnd]
    exact List.mem_cons_self _ _
  have hg : ExtCall.grant 480 (.str "765") (.num 10002) (.num 1) ∈
      (openChest cfgTwo body481 (.ok vOkData) (.ok gOkData) (fun _ => none) (1 / 2)).snd := by
    rw [hsnd]
    exact List.mem_cons_of_mem _ (List.mem_cons_self _ _)
  exact (openChest_call_appids cfgTwo body481 (.ok vOkData) (.ok gOkData)
    (fun _ => none) (1 / 2)).2.2 hne (.num 481) (.str "T") 480 (.str "765")
    (.num 10002) (.num 1) hv hg

/-! # Claim C1 -/

/-- Helper: for a draw in the interval of Math.random and a nonempty
array, pickRandom returns an element of the array. -/
theorem pickRandom_mem (arr : List ℚ) (r : ℚ) (h0 : 0 ≤ r) (h1 : r < 1)
    (hne : arr ≠ []) : ∃ k ∈ arr, pickRandom arr r = .num k := by
  have hlp : 0 < arr.length := List.length_pos.mpr hne
  have hlq : (0 : ℚ) < (arr.length : ℚ) := by exact_mod_cast hlp
  have hge : (0 : ℤ) ≤ ⌊r * (arr.length : ℚ)⌋ :=
    Int.floor_nonneg.mpr (mul_nonneg h0 (le_of_lt hlq))
  have hlt : ⌊r * (arr.length : ℚ)⌋ < (arr.length : ℤ) := by
    refine Int.floor_lt.mpr ?_
    push_cast
    calc r * (arr.length : ℚ) < 1 * (arr.length : ℚ) := mul_lt_mul_of_pos_right h1 hlq
      _ = (arr.length : ℚ) := one_mul _
  have hidx : (⌊r * (arr.length : ℚ)⌋).toNat < arr.length := by omega
  refine ⟨arr[(⌊r * (arr.length : ℚ)⌋).toNat], List.getElem_mem hidx, ?_⟩
  simp only [pickRandom]
  rw [if_neg (by omega : ¬⌊r * (arr.length : ℚ)⌋ < 0)]
  rw [List.getElem?_eq_getElem hidx]

/-- C1: whenever open-chest answers 200 (verification and grant both
succeeded), the itemdefid of the response body is a member of the
configured reward pool, for every draw Math.random can return. -/
theorem openChest_itemdefid_in_pool (cfg : Config) (body : JsValue)
    (vO gO : Except JsErr JsValue) (jsonParse : String → Option JsValue) (r : ℚ)
    (h0 : 0 ≤ r) (h1 : r < 1)
    (hs : (openChest cfg body vO gO jsonParse r).fst.status = 200) :
    ∃ k ∈ cfg.dropKeys,
      (openChest cfg body vO gO jsonParse r).fst.body.getField "itemdefid" = .num k := by
  by_cases h1c : (!(body.getField "appid").truthy || !(body.getField "steamid").truthy ||
      !(body.getField "ticket").truthy) = true
  · simp [openChest, h1c] at hs
  · by_cases h2c : (!keyTruthy cfg) = true
    · simp [openChest, h1c, h2c] at hs
    · by_cases h3c : (cfg.dropKeys.length == 0) = true
      · simp [openChest, h1c, h2c, h3c] at hs
      · have hne : cfg.dropKeys ≠ [] := by
          intro hnil
          rw [hnil] at h3c
          exact h3c (by decide)
        cases vO with
        | error e => simp [openChest, h1c, h2c, h3c] at hs
        | ok data =>
          by_cases h4c :
              (!((verifyTicket data (body.getField "steamid")).getField "ok").truthy) = true
          · simp [openChest, h1c, h2c, h3c, h4c] at hs
          · cases hg : grantItemCall gO jsonParse with
            | error e => simp [openChest, h1c, h2c, h3c, h4c, hg] at hs
            | ok g =>
              by_cases h5c : (!g.ok) = true
              · simp [openChest, h1c, h2c, h3c, h4c, hg, h5c] at hs
              · obtain ⟨k, hk, hpick⟩ := pickRandom_mem cfg.dropKeys r h0 h1 hne
                refine ⟨k, hk, ?_⟩
                have hres : (openChest cfg body (.ok data) gO jsonParse r).fst.body =
                    .obj [("ok", .bool true), ("itemdefid", pickRandom cfg.dropKeys r),
                      ("grant", g.raw)] := by
                  simp [openChest, h1c, h2c, h3c, h4c, hg, h5c]
                rw [hres, getField_pair_tail _ _ _ _ (by decide), getField_pair_head, hpick]

/-- C1 witness: a successful run over the two-element pool with the draw
one half returns an itemdefid from the pool. -/
theorem openChest_itemdefid_in_pool_witness :
    (0 : ℚ) ≤ 1 / 2 ∧ (1 : ℚ) / 2 < 1 ∧
    (openChest cfgTwo fullBody (.ok vOkData) (.ok gOkData) (fun _ => none)
      (1 / 2)).fst.status = 200 ∧
    ∃ k ∈ cfgTwo.dropKeys,
      (openChest cfgTwo fullBody (.ok vOkData) (.ok gOkData) (fun _ => none)
        (1 / 2)).fst.body.getField "itemdefid" = .num k :=
  ⟨by norm_num, by norm_num, by with_unfolding_all rfl,
    openChest_itemdefid_in_pool cfgTwo fullBody (.ok vOkData) (.ok gOkData) (fun _ => none)
      (1 / 2) (by norm_num) (by norm_num) (by with_unfolding_all rfl)⟩

/-! # Claim C4 -/

/-- Helper: membership after one Set.add. -/
theorem mem_addKey (acc : List ℚ) (a q : ℚ) : q ∈ addKey acc a ↔ q ∈ acc ∨ q = a := by
  unfold addKey
  split
  · rename_i h
    constructor
    · exact Or.inl
    · rintro (hq | rfl)
      · exact hq
      · exact h
  · simp [List.mem_append]

/-- Helper: membership after adding a whole contribution list. -/
theorem mem_foldl_addKey (l : List ℚ) (acc : List ℚ) (q : ℚ) :
    q ∈ l.foldl addKey acc ↔ q ∈ acc ∨ q ∈ l := by
  induction l generalizing acc with
  | nil => simp
  | cons a l ih =>
    rw [List.foldl_cons, ih, mem_addKey, List.mem_cons]
    tauto

/-- Helper: membership in the Set after the whole token loop. -/
theorem mem_collectKeys (ts : List (List Char)) (q : ℚ) :
    q ∈ collectKeys ts ↔ ∃ t ∈ ts, q ∈ tokenContrib t := by
  have aux : ∀ acc : List ℚ,
      q ∈ ts.foldl (fun acc t => (tokenContrib t).foldl addKey acc) acc ↔
        q ∈ acc ∨ ∃ t ∈ ts, q ∈ tokenContrib t := by
    induction ts with
    | nil => intro acc; simp
    | cons t ts ih =>
      intro acc
      rw [List.foldl_cons, ih, mem_foldl_addKey]
      simp only [List.mem_cons]
      constructor
      · rintro ((h | h) | ⟨t2, ht2, hq2⟩)
        · exact Or.inl h
        · exact Or.inr ⟨t, Or.inl rfl, h⟩
        · exact Or.inr ⟨t2, Or.inr ht2, hq2⟩
      · rintro (h | ⟨t2, (rfl | ht2), hq2⟩)
        · exact Or.inl (Or.inl h)
        · exact Or.inl (Or.inr hq2)
        · exact Or.inr ⟨t2, ht2, hq2⟩
  simpa using aux []

/-- Helper: membership in the parsed pool is membership in some token
contribution. -/
theorem mem_parseDropKeys (s : String) (q : ℚ) :
    q ∈ parseDropKeys s ↔ ∃ t ∈ tokenList s, q ∈ tokenContrib t := by
  unfold parseDropKeys
  rw [(List.perm_insertionSort _ _).mem_iff, mem_collectKeys]

/-- C4 counterexample: the token -5 is neither a range match nor a bare
non-negative integer, yet Number accepts it, so the pool contains the
negative value -5; the claim that every element is a non-negative
integer fails. -/
theorem parseDropKeys_negative_output :
    parseDropKeys "-5" = [-5] ∧ ((-5 : ℚ) < 0) :=
  ⟨by with_unfolding_all rfl, by norm_num⟩

/-- C4 amended: every element of the parsed pool comes from a token that
either matches the range regex with finite bounds a less-or-equal b
(contributing the integers of the closed range) or converts to a finite
number under Number — which may be negative or fractional; every other
token contributes nothing, and no token ever raises (the parser is a
total function). -/
theorem parseDropKeys_elems (s : String) (q : ℚ) (hq : q ∈ parseDropKeys s) :
    ∃ t ∈ tokenList s,
      (∃ a b, rangeMatch t = some (a, b) ∧ a < dblLimitNat ∧ b < dblLimitNat ∧ a ≤ b ∧
        ∃ x : ℕ, a ≤ x ∧ x ≤ b ∧ q = (x : ℚ)) ∨
      strToNum t = some q := by
  rw [mem_parseDropKeys] at hq
  obtain ⟨t, ht, hc⟩ := hq
  refine ⟨t, ht, ?_⟩
  have hopt : ∀ o : Option ℚ,
      q ∈ (match o with | some x => [x] | none => ([] : List ℚ)) → o = some q := by
    intro o hqo
    cases o with
    | none => simp at hqo
    | some x =>
      simp only [List.mem_singleton] at hqo
      rw [hqo]
  cases hrm : rangeMatch t with
  | some ab =>
    obtain ⟨a, b⟩ := ab
    rw [show tokenContrib t = if a < dblLimitNat ∧ b < dblLimitNat ∧ a ≤ b then
        List.map (Nat.cast : ℕ → ℚ) (List.range' a (b + 1 - a)) else [] from by
      unfold tokenContrib
      rw [hrm]] at hc
    split at hc
    · rename_i hguard
      obtain ⟨ha, hb, hab⟩ := hguard
      obtain ⟨x, hx, hxq⟩ := List.mem_map.mp hc
      rw [List.mem_range'_1] at hx
      exact Or.inl ⟨a, b, rfl, ha, hb, hab, x, hx.1, by omega, hxq.symm⟩
    · simp at hc
  | none =>
    rw [show tokenContrib t = match strToNum t with
        | some x => [x]
        | none => [] from by
      unfold tokenContrib
      rw [hrm]] at hc
    exact Or.inr (hopt _ hc)

/-- C4 amended witness: the element 7 of the pool parsed from the token 7
is characterized through the single-number branch. -/
theorem parseDropKeys_elems_witness :
    (7 : ℚ) ∈ parseDropKeys "7" ∧
    ∃ t ∈ tokenList "7",
      (∃ a b, rangeMatch t = some (a, b) ∧ a < dblLimitNat ∧ b < dblLimitNat ∧ a ≤ b ∧
        ∃ x : ℕ, a ≤ x ∧ x ≤ b ∧ (7 : ℚ) = (x : ℚ)) ∨
      strToNum t = some 7 :=
  ⟨by with_unfolding_all decide,
    parseDropKeys_elems "7" 7 (by with_unfolding_all decide)⟩

/-! # Claim C9: toolkit -/

theorem dropWhile_eq_self_of_head (p : Char → Bool) (u : List Char)
    (h : ∀ c ∈ u, p c = false) : u.dropWhile p = u := by
  cases u with
  | nil => rfl
  | cons c u => simp [List.dropWhile_cons, h c (List.mem_cons_self c u)]

theorem trimChars_eq_self (u : List Char) (h : ∀ c ∈ u, isWs c = false) :
    trimChars u = u := by
  unfold trimChars
  rw [dropWhile_eq_self_of_head _ _ h,
    dropWhile_eq_self_of_head _ _ (fun c hc => h c (List.mem_reverse.mp hc)),
    List.reverse_reverse]

theorem trimChars_cons_ws (u : List Char) (h : ∀ c ∈ u, isWs c = false) :
    trimChars (' ' :: u) = u := by
  unfold trimChars
  rw [show (' ' :: u).dropWhile isWs = u.dropWhile isWs from by
    simp [List.dropWhile_cons, isWs]]
  rw [dropWhile_eq_self_of_head _ _ h,
    dropWhile_eq_self_of_head _ _ (fun c hc => h c (List.mem_reverse.mp hc)),
    List.reverse_reverse]

theorem spanWhile_all (p : Char → Bool) (u : List Char) (h : ∀ c ∈ u, p c = true) :
    spanWhile p u = (u, []) := by
  induction u with
  | nil => rfl
  | cons c u ih =>
    simp [spanWhile, h c (List.mem_cons_self c u),
      ih (fun x hx => h x (List.mem_cons_of_mem c hx))]

theorem spanWhile_append (p : Char → Bool) (u : List Char) (c : Char) (v : List Char)
    (hu : ∀ x ∈ u, p x = true) (hc : p c = false) :
    spanWhile p (u ++ c :: v) = (u, c :: v) := by
  induction u with
  | nil => simp [spanWhile, hc]
  | cons a u ih =>
    simp only [List.cons_append]
    simp [spanWhile, hu a (List.mem_cons_self a u),
      ih (fun x hx => hu x (List.mem_cons_of_mem a hx))]

theorem dv_append (a b : List Char) : dv (a ++ b) = dv a * 10 ^ b.length + dv b := by
  induction a with
  | nil => simp [dv]
  | cons c a ih =>
    simp only [List.cons_append, dv, List.append_eq]
    rw [ih, List.length_append, pow_add]
    ring

theorem dv_replicate_zero (j : ℕ) (u : List Char) :
    dv (List.replicate j '0' ++ u) = dv u := by
  rw [dv_append]
  have hz : dv (List.replicate j '0') = 0 := by
    induction j with
    | zero => rfl
    | succ j ih => simp [List.replicate_succ, dv, ih, show dVal '0' = 0 from rfl]
  simp [hz]

theorem dVal_digCh (d : ℕ) (h : d < 10) : dVal (digCh d) = d := by
  interval_cases d <;> rfl

theorem isDig_digCh (d : ℕ) (h : d < 10) : isDig (digCh d) = true := by
  interval_cases d <;> rfl

theorem dv_rev_map_digCh (ds : List ℕ) (h : ∀ d ∈ ds, d < 10) :
    dv ((ds.map digCh).reverse) = Nat.ofDigits 10 ds := by
  induction ds with
  | nil => rfl
  | cons d ds ih =>
    simp only [List.map_cons, List.reverse_cons, dv_append]
    rw [ih (fun x hx => h x (List.mem_cons_of_mem d hx))]
    simp [dv, dVal_digCh d (h d (List.mem_cons_self d ds)), Nat.ofDigits_cons]
    ring

theorem dv_natChars (n : ℕ) : dv (natChars n) = n := by
  unfold natChars
  split
  · rename_i h
    subst h
    rfl
  · rw [dv_rev_map_digCh _ (fun d hd => Nat.digits_lt_base (by norm_num) hd)]
    exact Nat.ofDigits_digits 10 n

theorem natChars_all_digits (n : ℕ) : ∀ c ∈ natChars n, isDig c = true := by
  unfold natChars
  split
  · intro c hc
    simp only [List.mem_singleton] at hc
    subst hc
    rfl
  · intro c hc
    rw [List.mem_reverse] at hc
    obtain ⟨d, hd, rfl⟩ := List.mem_map.mp hc
    exact isDig_digCh d (Nat.digits_lt_base (by norm_num) hd)

theorem natChars_ne_nil (n : ℕ) : natChars n ≠ [] := by
  unfold natChars
  split
  · simp
  · rename_i h
    simp [List.map_eq_nil_iff, Nat.digits_ne_nil_iff_ne_zero.mpr h]

theorem splitSeps_ne_nil (cs : List Char) : splitSeps cs ≠ [] := by
  induction cs with
  | nil => simp [splitSeps]
  | cons c cs ih =>
    unfold splitSeps
    split
    · simp
    · cases h : splitSeps cs with
      | nil => exact absurd h ih
      | cons t ts => simp

theorem splitSeps_append_nosep (u r : List Char) (hu : ∀ c ∈ u, isSep c = false) :
    splitSeps (u ++ r) = (splitSeps r).modifyHead (u ++ ·) := by
  induction u with
  | nil =>
    simp only [List.nil_append]
    cases h : splitSeps r with
    | nil => exact absurd h (splitSeps_ne_nil r)
    | cons t ts => simp [List.modifyHead]
  | cons c u ih =>
    have hc : isSep c = false := hu c (List.mem_cons_self c u)
    have ih2 := ih (fun x hx => hu x (List.mem_cons_of_mem c hx))
    cases h : splitSeps r with
    | nil => exact absurd h (splitSeps_ne_nil r)
    | cons t ts =>
      rw [h] at ih2
      simp only [List.cons_append]
      unfold splitSeps
      rw [hc]
      simp only [Bool.false_eq_true, if_false]
      rw [ih2]
      simp [List.modifyHead]

theorem splitSeps_nosep (u : List Char) (hu : ∀ c ∈ u, isSep c = false) :
    splitSeps u = [u] := by
  have h := splitSeps_append_nosep u [] hu
  simpa [splitSeps, List.modifyHead] using h

theorem isSep_false_of_digdotdash (c : Char)
    (h : isDig c = true ∨ c = '.' ∨ c = '-') : isSep c = false := by
  rcases h with h | rfl | rfl
  · by_contra hs
    rw [Bool.not_eq_false] at hs
    simp only [isSep, Bool.or_eq_true, decide_eq_true_eq] at hs
    rcases hs with rfl | rfl
    · exact absurd h (by decide)
    · exact absurd h (by decide)
  · decide
  · decide

theorem isWs_false_of_digdotdash (c : Char)
    (h : isDig c = true ∨ c = '.' ∨ c = '-') : isWs c = false := by
  rcases h with h | rfl | rfl
  · by_contra hs
    rw [Bool.not_eq_false] at hs
    simp only [isWs, Bool.or_eq_true, decide_eq_true_eq] at hs
    casesm* _ ∨ _
    all_goals subst_vars
    all_goals exact absurd h (by decide)
  · decide
  · decide

theorem posBody_chars (n d : ℕ) : ∀ c ∈ posBody n d, isDig c = true ∨ c = '.' := by
  intro c hc
  simp only [posBody] at hc
  split at hc
  · exact Or.inl (natChars_all_digits _ c hc)
  · split at hc
    · exact Or.inl (natChars_all_digits _ c hc)
    · rw [List.mem_append] at hc
      rcases hc with hc | hc
      · have hp := List.take_subset _ _ hc
        rw [List.mem_append] at hp
        rcases hp with h0 | hN
        · rw [List.eq_of_mem_replicate h0]
          exact Or.inl (by decide)
        · exact Or.inl (natChars_all_digits _ c hN)
      · rw [List.mem_cons] at hc
        rcases hc with rfl | hc
        · exact Or.inr rfl
        · have hp := List.drop_subset _ _ hc
          rw [List.mem_append] at hp
          rcases hp with h0 | hN
          · rw [List.eq_of_mem_replicate h0]
            exact Or.inl (by decide)
          · exact Or.inl (natChars_all_digits _ c hN)

theorem posBody_ne_nil (n d : ℕ) : posBody n d ≠ [] := by
  intro h
  simp only [posBody] at h
  split at h
  · exact natChars_ne_nil _ h
  · split at h
    · exact natChars_ne_nil _ h
    · rw [List.append_eq_nil] at h
      exact List.noConfusion h.2

theorem numToString_chars (q : ℚ) :
    ∀ c ∈ numToString q, isDig c = true ∨ c = '.' ∨ c = '-' := by
  unfold numToString
  split
  · intro c hc
    simp only [List.mem_singleton] at hc
    subst hc
    exact Or.inl (by decide)
  · split
    · intro c hc
      rw [List.mem_cons] at hc
      rcases hc with rfl | hc
      · exact Or.inr (Or.inr rfl)
      · rcases posBody_chars _ _ c hc with h | h
        · exact Or.inl h
        · exact Or.inr (Or.inl h)
    · intro c hc
      rcases posBody_chars _ _ c hc with h | h
      · exact Or.inl h
      · exact Or.inr (Or.inl h)

theorem numToString_ne_nil (q : ℚ) : numToString q ≠ [] := by
  unfold numToString
  split
  · simp
  · split
    · simp
    · exact posBody_ne_nil _ _

theorem parseDec_natChars (m : ℕ) : parseDec (natChars m) = some ((m : ℚ)) := by
  have hspan := spanWhile_all isDig (natChars m) (natChars_all_digits m)
  simp only [parseDec, hspan]
  simp [natChars_ne_nil m, parseExp, dv_natChars]

theorem parseDec_frac (P F : List Char) (hP : ∀ c ∈ P, isDig c = true)
    (hF : ∀ c ∈ F, isDig c = true) (hPne : P ≠ []) :
    parseDec (P ++ '.' :: F) = some ((dv P : ℚ) + (dv F : ℚ) / 10 ^ F.length) := by
  have hspan := spanWhile_append isDig P '.' F hP (by decide)
  have hspanF := spanWhile_all isDig F hF
  simp only [parseDec, hspan, hspanF]
  simp [hPne, parseExp]

theorem radixOf_none_of_digdot (u : List Char) (h : ∀ c ∈ u, isDig c = true ∨ c = '.') :
    radixOf u = none := by
  cases u with
  | nil => rfl
  | cons c t =>
    rcases h c (List.mem_cons_self c t) with hd | rfl
    · have hx : ¬(c = 'x' ∨ c = 'X') := by
        rintro (rfl | rfl) <;> exact absurd hd (by decide)
      have ho : ¬(c = 'o' ∨ c = 'O') := by
        rintro (rfl | rfl) <;> exact absurd hd (by decide)
      have hb : ¬(c = 'b' ∨ c = 'B') := by
        rintro (rfl | rfl) <;> exact absurd hd (by decide)
      simp only [radixOf]
      rw [if_neg hx, if_neg ho, if_neg hb]
    · rfl

theorem strToNum_guard_body (body : List Char) (v : ℚ) (hne : body ≠ [])
    (hchars : ∀ c ∈ body, isDig c = true ∨ c = '.')
    (hdec : parseDec body = some v) : strToNum body = guardFinite v := by
  have htrim : trimChars body = body :=
    trimChars_eq_self body (fun c hc => isWs_false_of_digdotdash c (by
      rcases hchars c hc with h | h
      · exact Or.inl h
      · exact Or.inr (Or.inl h)))
  cases body with
  | nil => exact absurd rfl hne
  | cons c rest =>
    have hc := hchars c (List.mem_cons_self c rest)
    have hrad : radixOf rest = none :=
      radixOf_none_of_digdot rest (fun x hx => hchars x (List.mem_cons_of_mem c hx))
    have hplus : c ≠ '+' := by
      rcases hc with h | rfl
      · rintro rfl
        exact absurd h (by decide)
      · decide
    have hminus : c ≠ '-' := by
      rcases hc with h | rfl
      · rintro rfl
        exact absurd h (by decide)
      · decide
    simp only [strToNum, htrim]
    simp [hrad, hplus, hminus, hdec]

theorem strToNum_guard_neg (body : List Char) (v : ℚ) (_hne : body ≠ [])
    (hchars : ∀ c ∈ body, isDig c = true ∨ c = '.')
    (hdec : parseDec body = some v) : strToNum ('-' :: body) = guardFinite (-v) := by
  have htrim : trimChars ('-' :: body) = '-' :: body := by
    refine trimChars_eq_self _ ?_
    intro c hc
    rw [List.mem_cons] at hc
    rcases hc with rfl | hc
    · decide
    · refine isWs_false_of_digdotdash c ?_
      rcases hchars c hc with h | h
      · exact Or.inl h
      · exact Or.inr (Or.inl h)
  simp only [strToNum, htrim]
  simp [hdec]

theorem rangeMatch_all_digits (u : List Char) (h : ∀ c ∈ u, isDig c = true) :
    rangeMatch u = none := by
  by_cases hu : u = []
  · subst hu
    rfl
  · simp only [rangeMatch, spanWhile_all isDig u h]
    simp [hu]

theorem rangeMatch_frac (P F : List Char) (hP : ∀ c ∈ P, isDig c = true)
    (_hF : ∀ c ∈ F, isDig c = true) :
    rangeMatch (P ++ '.' :: F) = none := by
  by_cases hPne : P = []
  · subst hPne
    simp only [List.nil_append]
    simp [rangeMatch, spanWhile, show isDig '.' = false from by decide]
  · simp only [rangeMatch, spanWhile_append isDig P '.' F hP (by decide)]
    simp [hPne, List.dropWhile_cons, show isWs '.' = false from by decide]

theorem rangeMatch_neg_head (body : List Char) : rangeMatch ('-' :: body) = none := by
  simp [rangeMatch, spanWhile, show isDig '-' = false from by decide]

theorem dvd_ten_pow_self : ∀ d : ℕ, 0 < d → (∃ j, d ∣ 10 ^ j) → d ∣ 10 ^ d := by
  intro d
  induction d using Nat.strong_induction_on with
  | _ d ih =>
    intro hd hex
    obtain ⟨j, hj⟩ := hex
    by_cases h2 : 2 ∣ d
    · obtain ⟨d2, rfl⟩ := h2
      have hd2 : 0 < d2 := by omega
      have ih2 : d2 ∣ 10 ^ d2 := ih d2 (by omega) hd2 ⟨j, dvd_trans (dvd_mul_left d2 2) hj⟩
      have step1 : 2 * d2 ∣ 2 * 10 ^ d2 := mul_dvd_mul_left 2 ih2
      have step2 : 2 * 10 ^ d2 ∣ 10 ^ (d2 + 1) := by
        rw [pow_succ]
        exact ⟨5, by ring⟩
      have step3 : 10 ^ (d2 + 1) ∣ 10 ^ (2 * d2) := pow_dvd_pow 10 (by omega)
      exact dvd_trans step1 (dvd_trans step2 step3)
    · by_cases h5 : 5 ∣ d
      · obtain ⟨d5, rfl⟩ := h5
        have hd5 : 0 < d5 := by omega
        have ih5 : d5 ∣ 10 ^ d5 := ih d5 (by omega) hd5 ⟨j, dvd_trans (dvd_mul_left d5 5) hj⟩
        have step1 : 5 * d5 ∣ 5 * 10 ^ d5 := mul_dvd_mul_left 5 ih5
        have step2 : 5 * 10 ^ d5 ∣ 10 ^ (d5 + 1) := by
          rw [pow_succ]
          exact ⟨2, by ring⟩
        have step3 : 10 ^ (d5 + 1) ∣ 10 ^ (5 * d5) := pow_dvd_pow 10 (by omega)
        exact dvd_trans step1 (dvd_trans step2 step3)
      · have hc2 : Nat.Coprime 2 d := Nat.prime_two.coprime_iff_not_dvd.mpr h2
        have hc5 : Nat.Coprime 5 d := Nat.prime_five.coprime_iff_not_dvd.mpr h5
        have hc10 : Nat.Coprime d 10 := by
          have h2' : Nat.Coprime d 2 := hc2.symm
          have h5' : Nat.Coprime d 5 := hc5.symm
          have hmul := Nat.Coprime.mul_right h2' h5'
          simpa using hmul
        have hone : d = 1 := (hc10.pow_right j).eq_one_of_dvd hj
        subst hone
        exact one_dvd _

theorem posBody_val (n d : ℕ) (hd : 0 < d)
    (hdvd : d ∣ 10 ^ (if d = 1 then 0 else d)) :
    parseDec (posBody n d) = some ((n : ℚ) / (d : ℚ)) := by
  by_cases hd1 : d = 1
  · subst hd1
    have hbody : posBody n 1 = natChars n := by
      simp [posBody]
    rw [hbody, parseDec_natChars]
    norm_num
  · have hk : (if d = 1 then 0 else d) = d := if_neg hd1
    rw [hk] at hdvd
    simp only [posBody, hk]
    rw [if_neg (by omega : ¬d = 0)]
    set m := n * 10 ^ d / d with hm
    set L := (natChars m).length with hL
    set pad := List.replicate (d + 1 - L) '0' ++ natChars m with hpad
    have hpadlen : pad.length = (d + 1 - L) + L := by
      rw [hpad, List.length_append, List.length_replicate]
    have hLpos : 0 < L := by
      rw [hL]
      exact List.length_pos.mpr (natChars_ne_nil m)
    have hpadge : d + 1 ≤ pad.length := by omega
    have hpaddig : ∀ c ∈ pad, isDig c = true := by
      intro c hc
      rw [hpad, List.mem_append] at hc
      rcases hc with hc | hc
      · rw [List.eq_of_mem_replicate hc]
        decide
      · exact natChars_all_digits _ c hc
    set P := pad.take (pad.length - d) with hP
    set F := pad.drop (pad.length - d) with hF
    have hPF : P ++ F = pad := List.take_append_drop _ _
    have hFlen : F.length = d := by
      rw [hF, List.length_drop]
      omega
    have hPlen : P.length = pad.length - d := by
      rw [hP, List.length_take]
      omega
    have hPne : P ≠ [] := by
      intro hnil
      have hlen := congrArg List.length hnil
      rw [hPlen] at hlen
      simp only [List.length_nil] at hlen
      omega
    have hPdig : ∀ c ∈ P, isDig c = true := fun c hc => hpaddig c (List.take_subset _ _ hc)
    have hFdig : ∀ c ∈ F, isDig c = true := fun c hc => hpaddig c (List.drop_subset _ _ hc)
    rw [parseDec_frac P F hPdig hFdig hPne]
    have hdvpad : dv pad = m := by
      rw [hpad, dv_replicate_zero, dv_natChars]
    have hsplit : dv P * 10 ^ d + dv F = m := by
      have hap := dv_append P F
      rw [hPF, hFlen, hdvpad] at hap
      omega
    have hmd : m * d = n * 10 ^ d := Nat.div_mul_cancel (Dvd.dvd.mul_left hdvd n)
    have key : ((dv P * 10 ^ d + dv F) * d : ℕ) = n * 10 ^ d := by
      rw [hsplit, hmd]
    have keyq : (((dv P : ℚ) * 10 ^ d + (dv F : ℚ)) * (d : ℚ)) = (n : ℚ) * 10 ^ d := by
      exact_mod_cast congrArg (Nat.cast : ℕ → ℚ) key
    have hdq : ((d : ℚ)) ≠ 0 := by
      exact_mod_cast hd.ne'
    have h10 : ((10 : ℚ) ^ d) ≠ 0 := by positivity
    rw [hFlen]
    congr 1
    field_simp
    linear_combination keyq

theorem strToNum_numToString (q : ℚ) (hgood : goodKey q) :
    strToNum (numToString q) = some q := by
  obtain ⟨⟨mI, tI, hform⟩, hbound⟩ := hgood
  by_cases h0 : q = 0
  · subst h0
    with_unfolding_all rfl
  · have hdpos : 0 < q.den := q.pos
    have hdvd10 : q.den ∣ 10 ^ tI := by
      have h1 : q = (mI : ℚ) / ((10 ^ tI : ℤ) : ℚ) := by
        rw [hform]
        push_cast
        ring
      have h2 : q = Rat.divInt mI (10 ^ tI) := by
        rw [Rat.divInt_eq_div]
        exact h1
      have h3 := Rat.den_dvd mI (10 ^ tI)
      rw [← h2] at h3
      have h4 : (q.den : ℤ) ∣ ((10 ^ tI : ℕ) : ℤ) := by
        push_cast
        exact h3
      exact_mod_cast h4
    have hdvdk : q.den ∣ 10 ^ (if q.den = 1 then 0 else q.den) := by
      by_cases h1 : q.den = 1
      · simp [h1]
      · rw [if_neg h1]
        exact dvd_ten_pow_self q.den hdpos ⟨tI, hdvd10⟩
    have hdec := posBody_val q.num.natAbs q.den hdpos hdvdk
    have habs : ((q.num.natAbs : ℚ)) / (q.den : ℚ) = |q| := by
      rw [Int.cast_natAbs]
      rw [show |q| = |(q.num : ℚ) / (q.den : ℚ)| from by rw [Rat.num_div_den]]
      rw [abs_div, abs_of_nonneg (by positivity : (0 : ℚ) ≤ (q.den : ℚ)), Int.cast_abs]
    by_cases hneg : q < 0
    · have hns : numToString q = '-' :: posBody q.num.natAbs q.den := by
        unfold numToString
        rw [if_neg h0, if_pos hneg]
      rw [hns, strToNum_guard_neg _ _ (posBody_ne_nil _ _) (posBody_chars _ _) hdec]
      have hval : -(((q.num.natAbs : ℚ)) / (q.den : ℚ)) = q := by
        rw [habs, abs_of_neg hneg]
        ring
      rw [hval]
      unfold guardFinite
      rw [if_pos hbound]
    · have hpos : 0 < q := lt_of_le_of_ne (not_lt.mp hneg) (Ne.symm h0)
      have hns : numToString q = posBody q.num.natAbs q.den := by
        unfold numToString
        rw [if_neg h0, if_neg hneg]
      rw [hns, strToNum_guard_body _ _ (posBody_ne_nil _ _) (posBody_chars _ _) hdec]
      have hval : (((q.num.natAbs : ℚ)) / (q.den : ℚ)) = q := by
        rw [habs, abs_of_pos hpos]
      rw [hval]
      unfold guardFinite
      rw [if_pos hbound]

theorem guardFinite_eq_some (v q : ℚ) (h : guardFinite v = some q) :
    q = v ∧ |q| < dblLimit := by
  unfold guardFinite at h
  split at h
  · rename_i hb
    cases h
    exact ⟨rfl, hb⟩
  · exact absurd h (by simp)

theorem ite_exp_form (b : Bool) (n0 t0 E : ℕ) (v : ℚ)
    (hv : (if b = true then (n0 : ℚ) / 10 ^ t0 / 10 ^ E
      else (n0 : ℚ) / 10 ^ t0 * 10 ^ E) = v) :
    ∃ n t : ℕ, v = (n : ℚ) / 10 ^ t := by
  cases b
  · rw [if_neg (by simp)] at hv
    refine ⟨n0 * 10 ^ E, t0, ?_⟩
    rw [← hv]
    push_cast
    ring
  · rw [if_pos rfl] at hv
    refine ⟨n0, t0 + E, ?_⟩
    rw [← hv, div_div, pow_add]

theorem parseExp_form (r : List Char) (n0 t0 : ℕ) (v : ℚ)
    (h : parseExp r ((n0 : ℚ) / 10 ^ t0) = some v) :
    ∃ n t : ℕ, v = (n : ℚ) / 10 ^ t := by
  cases r with
  | nil =>
    refine ⟨n0, t0, ?_⟩
    simpa [parseExp] using h.symm
  | cons c rest =>
    simp only [parseExp] at h
    split at h
    · split at h
      · exact absurd h (by simp)
      · exact ite_exp_form _ _ _ _ _ (Option.some.inj h)
    · exact absurd h (by simp)

theorem parseDec_form (cs : List Char) (v : ℚ) (h : parseDec cs = some v) :
    ∃ n t : ℕ, v = (n : ℚ) / 10 ^ t := by
  simp only [parseDec] at h
  split at h
  · rename_i r2 heq
    split at h
    · exact absurd h (by simp)
    · rw [show ((dv (spanWhile isDig cs).1 : ℚ) +
          (dv (spanWhile isDig r2).1 : ℚ) / 10 ^ (spanWhile isDig r2).1.length) =
          (((dv (spanWhile isDig cs).1 * 10 ^ (spanWhile isDig r2).1.length +
            dv (spanWhile isDig r2).1 : ℕ) : ℚ)) /
            10 ^ (spanWhile isDig r2).1.length from by
        push_cast
        field_simp] at h
      exact parseExp_form _ _ _ _ h
  · split at h
    · exact absurd h (by simp)
    · rw [show ((dv (spanWhile isDig cs).1 : ℚ)) =
          ((dv (spanWhile isDig cs).1 : ℚ)) / 10 ^ (0 : ℕ) from by norm_num] at h
      exact parseExp_form _ _ _ _ h

theorem dblLimit_pos : (0 : ℚ) < dblLimit := by
  have h : 0 < dblLimitNat := by
    unfold dblLimitNat
    positivity
  unfold dblLimit
  exact_mod_cast h

theorem strToNum_good (t : List Char) (q : ℚ) (h : strToNum t = some q) : goodKey q := by
  simp only [strToNum] at h
  split at h
  · cases h
    refine ⟨⟨0, 0, by norm_num⟩, ?_⟩
    rw [abs_zero]
    exact dblLimit_pos
  · split at h
    · split at h
      · rw [Option.bind_eq_some] at h
        obtain ⟨nv, _hnv, hg⟩ := h
        obtain ⟨hq, hb⟩ := guardFinite_eq_some _ _ hg
        refine ⟨⟨nv, 0, ?_⟩, hb⟩
        rw [hq]
        push_cast
        norm_num
      · exact absurd h (by simp)
    · split at h
      · rw [Option.bind_eq_some] at h
        obtain ⟨v, hv, hg⟩ := h
        obtain ⟨hq, hb⟩ := guardFinite_eq_some _ _ hg
        obtain ⟨n, t2, hform⟩ := parseDec_form _ _ hv
        refine ⟨⟨n, t2, ?_⟩, hb⟩
        rw [hq, hform]
        push_cast
        ring
      · split at h
        · rw [Option.bind_eq_some] at h
          obtain ⟨v, hv, hg⟩ := h
          obtain ⟨hq, hb⟩ := guardFinite_eq_some _ _ hg
          obtain ⟨n, t2, hform⟩ := parseDec_form _ _ hv
          refine ⟨⟨-(n : ℤ), t2, ?_⟩, hb⟩
          rw [hq, hform]
          push_cast
          ring
        · rw [Option.bind_eq_some] at h
          obtain ⟨v, hv, hg⟩ := h
          obtain ⟨hq, hb⟩ := guardFinite_eq_some _ _ hg
          obtain ⟨n, t2, hform⟩ := parseDec_form _ _ hv
          refine ⟨⟨n, t2, ?_⟩, hb⟩
          rw [hq, hform]
          push_cast
          ring

theorem mem_option_singleton (o : Option ℚ) (q : ℚ)
    (h : q ∈ (match o with | some x => [x] | none => ([] : List ℚ))) : o = some q := by
  cases o with
  | none => simp at h
  | some x =>
    simp only [List.mem_singleton] at h
    rw [h]

theorem parseDropKeys_good (s : String) : ∀ q ∈ parseDropKeys s, goodKey q := by
  intro q hq
  rw [mem_parseDropKeys] at hq
  obtain ⟨t, _ht, hc⟩ := hq
  cases hrm : rangeMatch t with
  | some ab =>
    obtain ⟨a, b⟩ := ab
    rw [show tokenContrib t = if a < dblLimitNat ∧ b < dblLimitNat ∧ a ≤ b then
        List.map (Nat.cast : ℕ → ℚ) (List.range' a (b + 1 - a)) else [] from by
      unfold tokenContrib
      rw [hrm]] at hc
    split at hc
    · rename_i hguard
      obtain ⟨ha, hb, hab⟩ := hguard
      obtain ⟨x, hx, rfl⟩ := List.mem_map.mp hc
      rw [List.mem_range'_1] at hx
      constructor
      · exact ⟨x, 0, by norm_num⟩
      · rw [abs_of_nonneg (by positivity : (0 : ℚ) ≤ (x : ℚ))]
        have hxb : x < dblLimitNat := by omega
        unfold dblLimit
        exact_mod_cast hxb
    · simp at hc
  | none =>
    rw [show tokenContrib t = match strToNum t with
        | some x => [x]
        | none => [] from by
      unfold tokenContrib
      rw [hrm]] at hc
    exact strToNum_good t q (mem_option_singleton _ _ hc)

theorem addKey_nodup (acc : List ℚ) (a : ℚ) (h : acc.Nodup) : (addKey acc a).Nodup := by
  unfold addKey
  split
  · exact h
  · rename_i hna
    simp [List.nodup_append, h, hna]

theorem foldl_addKey_nodup (l acc : List ℚ) (h : acc.Nodup) :
    (l.foldl addKey acc).Nodup := by
  induction l generalizing acc with
  | nil => exact h
  | cons a l ih => exact ih _ (addKey_nodup _ _ h)

theorem collectKeys_nodup (ts : List (List Char)) : (collectKeys ts).Nodup := by
  have aux : ∀ acc : List ℚ, acc.Nodup →
      (ts.foldl (fun acc t => (tokenContrib t).foldl addKey acc) acc).Nodup := by
    induction ts with
    | nil =>
      intro acc h
      exact h
    | cons t ts ih =>
      intro acc h
      exact ih _ (foldl_addKey_nodup _ _ h)
  exact aux [] List.nodup_nil

theorem parseDropKeys_nodup (s : String) : (parseDropKeys s).Nodup := by
  unfold parseDropKeys
  exact (List.perm_insertionSort _ _).nodup_iff.mpr (collectKeys_nodup _)

theorem trimChars_cons_sp (u : List Char) : trimChars (' ' :: u) = trimChars u := by
  unfold trimChars
  rw [show (' ' :: u).dropWhile isWs = u.dropWhile isWs from by
    simp [List.dropWhile_cons, isWs]]

theorem tokenList_join (ts : List (List Char))
    (h : ∀ t ∈ ts, t ≠ [] ∧ ∀ c ∈ t, isSep c = false ∧ isWs c = false) :
    ((splitSeps (joinCS ts)).map trimChars).filter (fun u => u ≠ []) = ts := by
  induction ts with
  | nil => rfl
  | cons t ts ih =>
    obtain ⟨htne, htc⟩ := h t (List.mem_cons_self t ts)
    have htrim : trimChars t = t := trimChars_eq_self t (fun c hc => (htc c hc).2)
    cases ts with
    | nil =>
      have hsplit : splitSeps (joinCS [t]) = [t] :=
        splitSeps_nosep t (fun c hc => (htc c hc).1)
      rw [hsplit]
      simp [htrim, htne]
    | cons t2 ts2 =>
      have hrest := ih (fun u hu => h u (List.mem_cons_of_mem t hu))
      have hjoin : joinCS (t :: t2 :: ts2) = t ++ ',' :: ' ' :: joinCS (t2 :: ts2) := rfl
      rw [hjoin, splitSeps_append_nosep t _ (fun c hc => (htc c hc).1)]
      have h1 : splitSeps (',' :: ' ' :: joinCS (t2 :: ts2)) =
          [] :: splitSeps (' ' :: joinCS (t2 :: ts2)) := by
        simp [splitSeps, isSep]
      rw [h1]
      obtain ⟨hh, tl, hx⟩ : ∃ hh tl, splitSeps (joinCS (t2 :: ts2)) = hh :: tl := by
        cases hsp : splitSeps (joinCS (t2 :: ts2)) with
        | nil => exact absurd hsp (splitSeps_ne_nil _)
        | cons a b => exact ⟨a, b, rfl⟩
      have h2 : splitSeps (' ' :: joinCS (t2 :: ts2)) = (' ' :: hh) :: tl := by
        simp [splitSeps, hx, show isSep ' ' = false from by decide]
      rw [h2]
      rw [hx] at hrest
      simp only [List.modifyHead, List.map_cons, List.append_nil, trimChars_cons_sp, htrim]
      simp only [List.map_cons] at hrest
      rw [List.filter_cons, if_pos (by simp [htne])]
      exact congrArg (t :: ·) hrest

theorem collect_singletons (l : List ℚ)
    (hc : ∀ q ∈ l, tokenContrib (numToString q) = [q]) (hnd : l.Nodup) :
    collectKeys (l.map numToString) = l := by
  have aux : ∀ (l2 : List ℚ) (acc : List ℚ), (acc ++ l2).Nodup →
      (∀ q ∈ l2, tokenContrib (numToString q) = [q]) →
      (l2.map numToString).foldl (fun acc t => (tokenContrib t).foldl addKey acc) acc =
        acc ++ l2 := by
    intro l2
    induction l2 with
    | nil =>
      intro acc h1 h2
      simp
    | cons q l2 ih =>
      intro acc h1 h2
      simp only [List.map_cons, List.foldl_cons]
      rw [h2 q (List.mem_cons_self q l2)]
      have hqnotin : q ∉ acc := by
        intro hin
        rw [List.nodup_append] at h1
        exact h1.2.2 hin (List.mem_cons_self q l2)
      have hstep : [q].foldl addKey acc = acc ++ [q] := by
        simp [addKey, hqnotin]
      rw [hstep]
      have h1' : ((acc ++ [q]) ++ l2).Nodup := by
        rw [List.append_assoc]
        simpa [List.singleton_append] using h1
      rw [ih (acc ++ [q]) h1' (fun x hx => h2 x (List.mem_cons_of_mem q hx))]
      rw [List.append_assoc]
      simp
  have haux := aux l [] (by simpa using hnd) hc
  simpa using haux

/-- C9: parsing the comma-separated serialization of the parser's own
sorted output reproduces exactly the same sequence, for every input
string. -/
theorem parseDropKeys_idem (s : String) :
    parseDropKeys (serializeKeys (parseDropKeys s)) = parseDropKeys s := by
  have hgood := parseDropKeys_good s
  have hnd := parseDropKeys_nodup s
  have hsort : (parseDropKeys s).Sorted (· ≤ ·) := List.sorted_insertionSort _ _
  have hcontrib : ∀ q ∈ parseDropKeys s, tokenContrib (numToString q) = [q] := by
    intro q hq
    have hrm : rangeMatch (numToString q) = none := by
      unfold numToString
      split
      · refine rangeMatch_all_digits _ ?_
        intro c hc
        simp only [List.mem_singleton] at hc
        subst hc
        decide
      · split
        · exact rangeMatch_neg_head _
        · simp only [posBody]
          split
          · exact rangeMatch_all_digits _ (natChars_all_digits _)
          · split
            · exact rangeMatch_all_digits _ (natChars_all_digits _)
            · refine rangeMatch_frac _ _ ?_ ?_
              · intro c hc
                have hp := List.take_subset _ _ hc
                rw [List.mem_append] at hp
                rcases hp with h0 | hN
                · rw [List.eq_of_mem_replicate h0]
                  decide
                · exact natChars_all_digits _ c hN
              · intro c hc
                have hp := List.drop_subset _ _ hc
                rw [List.mem_append] at hp
                rcases hp with h0 | hN
                · rw [List.eq_of_mem_replicate h0]
                  decide
                · exact natChars_all_digits _ c hN
    unfold tokenContrib
    rw [hrm, strToNum_numToString q (hgood q hq)]
  have hchars : ∀ t ∈ (parseDropKeys s).map numToString,
      t ≠ [] ∧ ∀ c ∈ t, isSep c = false ∧ isWs c = false := by
    intro t ht
    obtain ⟨q, _hq, rfl⟩ := List.mem_map.mp ht
    exact ⟨numToString_ne_nil q, fun c hc =>
      ⟨isSep_false_of_digdotdash c (numToString_chars q c hc),
        isWs_false_of_digdotdash c (numToString_chars q c hc)⟩⟩
  have htok : tokenList (serializeKeys (parseDropKeys s)) =
      (parseDropKeys s).map numToString := by
    unfold tokenList serializeKeys
    exact tokenList_join _ hchars
  show List.insertionSort (· ≤ ·)
      (collectKeys (tokenList (serializeKeys (parseDropKeys s)))) = parseDropKeys s
  rw [htok, collect_singletons _ hcontrib hnd]
  exact hsort.insertionSort_eq
